import Mathlib

/-!
Verification development for the customs-invoice extractor.

The definitions below are a shallow embedding of the TypeScript sources:

* `src/types.ts`               — the canonical data model (`BoundingBox`,
  `FieldMetadata`, `Party`, `LineItem`, `Table`, `InvoiceData`,
  `VendorTemplate`);
* `src/services/geminiService.ts` — the extraction normalizer
  (`transformModelResponseToInvoiceData` with its helpers `findField`,
  `normalizeBbox`, `createFieldMetadata`), the template-reconciliation
  logic of `_extractInvoiceData`, and the `boostConfidence` /
  `degradeInvoiceData` transforms (which operate generically on the JSON
  object graph, so they are modelled on a JSON value type and, for the
  aliasing/frame claims, on an explicit heap of JSON objects);
* `src/components/PdfViewer.tsx` — `performZoom`, the bounding-box
  pointer-move handler, and the table-gridline editing handlers
  (`handleMouseUp`, `handleDoubleClick`, `handleDeleteLine`);
* the XML serializer's `escapeXml` helper.

JavaScript numbers are modelled as rationals (`ℚ`); JavaScript `undefined`
for an optional property is modelled as `Option.none`, and a property whose
value may be `undefined` at runtime is given an `Option` type even where
the TypeScript annotation is non-optional (the normalizer builds line-item
rows incrementally, so a row object can lack scalar properties at runtime).
Thrown exceptions are modelled by `Option.none` results.
-/

namespace CustomsInvoice

/-- From `src/types.ts`: a page-anchored rectangle in normalized
coordinates; `page` is one-indexed. -/
structure BoundingBox where
  page : Int
  x1 : ℚ
  y1 : ℚ
  x2 : ℚ
  y2 : ℚ
deriving DecidableEq

/-- From `src/types.ts`: optional location and confidence for one field. -/
structure FieldMetadata where
  boundingBox : Option BoundingBox
  confidence : Option ℚ
deriving DecidableEq

/-- The `fields` map of a `Party` (`src/types.ts`). -/
structure PartyFields where
  name : Option FieldMetadata
  address : Option FieldMetadata
deriving DecidableEq

/-- From `src/types.ts`: shipper / consignee record. -/
structure Party where
  name : String
  address : String
  fields : Option PartyFields
deriving DecidableEq

/-- The `fields` map of a `LineItem` (`src/types.ts`). -/
structure LineItemFields where
  description : Option FieldMetadata
  quantity : Option FieldMetadata
  unitPrice : Option FieldMetadata
  totalPrice : Option FieldMetadata
  countryOfOrigin : Option FieldMetadata
  hsCode : Option FieldMetadata
deriving DecidableEq

/-- From `src/types.ts`.  The scalar values carry `Option` because the
normalizer builds row objects incrementally (`rows[cell.row] = {fields: {}}`
in `geminiService.ts`), so at runtime a row produced from an extraction
response has exactly the properties whose labels occurred among the cells. -/
structure LineItem where
  description : Option String
  quantity : Option ℚ
  unitPrice : Option ℚ
  totalPrice : Option ℚ
  countryOfOrigin : Option String
  hsCode : Option String
  cdsOverrides : Option (List String)
  boundingBox : Option BoundingBox
  fields : Option LineItemFields
deriving DecidableEq

/-- From `src/types.ts`: a table-grid descriptor. -/
structure Table where
  boundingBox : BoundingBox
  rows : List ℚ
  columns : List ℚ
deriving DecidableEq

/-- The top-level `fields` map of `InvoiceData` (`src/types.ts`). -/
structure InvoiceFields where
  invoiceNumber : Option FieldMetadata
  invoiceDate : Option FieldMetadata
  totalDeclaredValue : Option FieldMetadata
  currency : Option FieldMetadata
deriving DecidableEq

/-- From `src/types.ts`: the canonical data model. -/
structure InvoiceData where
  invoiceNumber : String
  invoiceDate : String
  shipper : Party
  consignee : Party
  totalDeclaredValue : ℚ
  currency : String
  lineItems : List LineItem
  tables : Option (List Table)
  fields : Option InvoiceFields
deriving DecidableEq

/-- From `src/types.ts`: a saved vendor template. -/
structure VendorTemplate where
  id : String
  vendorName : String
  invoiceData : InvoiceData
deriving DecidableEq

/-!
JSON values.  `boostConfidence` and `degradeInvoiceData` in
`geminiService.ts` first deep-copy their argument with
`JSON.parse(JSON.stringify(data))` and then walk / mutate the copy
generically, so they are modelled on a JSON value type.  Arrays and objects
are given by mutually inductive spine types (isomorphic to lists) so that
all recursions below are structural and compute by `rfl`.
-/

mutual

inductive JsonVal : Type where
  | null : JsonVal
  | bool : Bool → JsonVal
  | num : ℚ → JsonVal
  | str : String → JsonVal
  | arr : JsonArr → JsonVal
  | obj : JsonObj → JsonVal

inductive JsonArr : Type where
  | nil : JsonArr
  | cons : JsonVal → JsonArr → JsonArr

inductive JsonObj : Type where
  | nil : JsonObj
  | cons : String → JsonVal → JsonObj → JsonObj

end

/-- JavaScript truthiness of a JSON value (objects and arrays are always
truthy; `0`, `""`, `false` and `null` are falsy). -/
def JsonVal.truthy : JsonVal → Bool
  | .null => false
  | .bool b => b
  | .num q => !(q == 0)
  | .str s => !(s == "")
  | .arr _ => true
  | .obj _ => true

/-- Property lookup on a JSON object (`o[k]`; `none` models `undefined`). -/
def JsonObj.getProp : JsonObj → String → Option JsonVal
  | .nil, _ => none
  | .cons k v rest, key => if k == key then some v else rest.getProp key

/-- `v[k]` on a JSON value: `undefined` unless `v` is an object carrying
the key. -/
def JsonVal.getProp : JsonVal → String → Option JsonVal
  | .obj o, key => o.getProp key
  | _, _ => none

/-- Property assignment `o[k] = v`: replaces the key if present, appends it
otherwise (JavaScript object insertion order). -/
def JsonObj.setProp : JsonObj → String → JsonVal → JsonObj
  | .nil, key, v => .cons key v .nil
  | .cons k w rest, key, v =>
      if k == key then .cons k v rest else .cons k w (rest.setProp key v)

/-- `target[k] = v` on a JSON value; assignment on a non-object is a
silent no-op (sloppy-mode JavaScript). -/
def JsonVal.setProp : JsonVal → String → JsonVal → JsonVal
  | .obj o, key, v => .obj (o.setProp key v)
  | w, _, _ => w

/-- Value-level model of `JSON.parse(JSON.stringify(data))` from
`geminiService.ts`.  On a JSON value the round trip returns an equal value;
the fact that it returns a freshly allocated object graph is modelled
separately on the explicit heap below. -/
def deepCopy (v : JsonVal) : JsonVal := v

mutual

/-- The generic `recurse` of `boostConfidence` (`geminiService.ts`): walk
the object graph; whenever an object has a truthy `confidence` property,
overwrite it with `0.99`; recurse into every property value / array
element.  (Recursing into the just-written number `0.99` is a no-op in the
source and is elided here.) -/
def boostRec : JsonVal → JsonVal
  | .null => .null
  | .bool b => .bool b
  | .num q => .num q
  | .str s => .str s
  | .arr es => .arr (boostArr es)
  | .obj fs => .obj (boostObj fs)

def boostArr : JsonArr → JsonArr
  | .nil => .nil
  | .cons v rest => .cons (boostRec v) (boostArr rest)

def boostObj : JsonObj → JsonObj
  | .nil => .nil
  | .cons k v rest =>
      if k == "confidence" && v.truthy then
        .cons k (.num (99/100)) (boostObj rest)
      else
        .cons k (boostRec v) (boostObj rest)

end

/-- `boostConfidence` from `geminiService.ts`: deep-copy, then run the
confidence-boosting recursion over the copy and return it. -/
def boostConfidence (data : JsonVal) : JsonVal := boostRec (deepCopy data)

/-- First-occurrence string replacement, as JavaScript
`String.prototype.replace` with a string pattern. -/
def replaceFirst : List Char → List Char → List Char → List Char
  | [], _, _ => []
  | c :: rest, pat, sub =>
      if pat.isPrefixOf (c :: rest) then sub ++ (c :: rest).drop pat.length
      else c :: replaceFirst rest pat sub

/-- `degradeInvoiceData` from `geminiService.ts`, at the JSON value level:
deep-copy, then
`degraded.invoiceNumber = degraded.invoiceNumber.replace('001','O01')`,
`degraded.fields.invoiceNumber.confidence = 0.78`, and if there is at least
one line item, `degraded.lineItems[0].hsCode = '8471.3O.OO'` and
`degraded.lineItems[0].fields.hsCode.confidence = 0.65`.  A step that would
throw in JavaScript (property access on `undefined`, `.replace` on a
non-string) yields `none`. -/
def degradeInvoiceData (data : JsonVal) : Option JsonVal :=
  let degraded := deepCopy data
  match degraded.getProp "invoiceNumber" with
  | some (.str invNum) =>
    let degraded := degraded.setProp "invoiceNumber"
      (.str (String.mk (replaceFirst invNum.data "001".data "O01".data)))
    match degraded.getProp "fields" with
    | some flds =>
      match flds.getProp "invoiceNumber" with
      | some invMeta =>
        let invMeta := invMeta.setProp "confidence" (.num (78/100))
        let degraded := degraded.setProp "fields"
          (flds.setProp "invoiceNumber" invMeta)
        match degraded.getProp "lineItems" with
        | some (.arr (.cons first rest)) =>
          match first.getProp "fields" with
          | some liFlds =>
            match liFlds.getProp "hsCode" with
            | some hsMeta =>
              let first := first.setProp "hsCode" (.str "8471.3O.OO")
              let first := first.setProp "fields"
                (liFlds.setProp "hsCode"
                  (hsMeta.setProp "confidence" (.num (65/100))))
              some (degraded.setProp "lineItems" (.arr (.cons first rest)))
            | none => none
          | none => none
        | some (.arr .nil) => some degraded
        | _ => none
      | none => none
    | none => none
  | _ => none

/-!
Encoding of the typed data model into JSON values, mirroring the runtime
object layout.  `JSON.stringify` drops properties whose value is
`undefined`, so an `Option.none` field encodes as an absent key.
-/

/-- Append a key to a JSON object spine only when the value is present. -/
def optField (key : String) (v : Option JsonVal) (rest : JsonObj) : JsonObj :=
  match v with
  | none => rest
  | some x => .cons key x rest

/-- Encode a list as a JSON array spine. -/
def encodeArr (f : α → JsonVal) : List α → JsonArr
  | [] => .nil
  | x :: xs => .cons (f x) (encodeArr f xs)

def BoundingBox.toJson (b : BoundingBox) : JsonVal :=
  .obj (.cons "page" (.num b.page)
    (.cons "x1" (.num b.x1) (.cons "y1" (.num b.y1)
      (.cons "x2" (.num b.x2) (.cons "y2" (.num b.y2) .nil)))))

def FieldMetadata.toJson (m : FieldMetadata) : JsonVal :=
  .obj (optField "confidence" (m.confidence.map JsonVal.num)
    (optField "boundingBox" (m.boundingBox.map BoundingBox.toJson) .nil))

def PartyFields.toJson (f : PartyFields) : JsonVal :=
  .obj (optField "name" (f.name.map FieldMetadata.toJson)
    (optField "address" (f.address.map FieldMetadata.toJson) .nil))

def Party.toJson (p : Party) : JsonVal :=
  .obj (.cons "name" (.str p.name) (.cons "address" (.str p.address)
    (optField "fields" (p.fields.map PartyFields.toJson) .nil)))

def LineItemFields.toJson (f : LineItemFields) : JsonVal :=
  .obj (optField "description" (f.description.map FieldMetadata.toJson)
    (optField "quantity" (f.quantity.map FieldMetadata.toJson)
      (optField "unitPrice" (f.unitPrice.map FieldMetadata.toJson)
        (optField "totalPrice" (f.totalPrice.map FieldMetadata.toJson)
          (optField "countryOfOrigin"
              (f.countryOfOrigin.map FieldMetadata.toJson)
            (optField "hsCode" (f.hsCode.map FieldMetadata.toJson) .nil))))))

def LineItem.toJson (li : LineItem) : JsonVal :=
  .obj (optField "description" (li.description.map JsonVal.str)
    (optField "quantity" (li.quantity.map JsonVal.num)
      (optField "unitPrice" (li.unitPrice.map JsonVal.num)
        (optField "totalPrice" (li.totalPrice.map JsonVal.num)
          (optField "countryOfOrigin" (li.countryOfOrigin.map JsonVal.str)
            (optField "hsCode" (li.hsCode.map JsonVal.str)
              (optField "cdsOverrides"
                  (li.cdsOverrides.map
                    (fun l => .arr (encodeArr JsonVal.str l)))
                (optField "boundingBox"
                    (li.boundingBox.map BoundingBox.toJson)
                  (optField "fields"
                      (li.fields.map LineItemFields.toJson) .nil)))))))))

def Table.toJson (t : Table) : JsonVal :=
  .obj (.cons "boundingBox" t.boundingBox.toJson
    (.cons "rows" (.arr (encodeArr JsonVal.num t.rows))
      (.cons "columns" (.arr (encodeArr JsonVal.num t.columns)) .nil)))

def InvoiceFields.toJson (f : InvoiceFields) : JsonVal :=
  .obj (optField "invoiceNumber" (f.invoiceNumber.map FieldMetadata.toJson)
    (optField "invoiceDate" (f.invoiceDate.map FieldMetadata.toJson)
      (optField "totalDeclaredValue"
          (f.totalDeclaredValue.map FieldMetadata.toJson)
        (optField "currency" (f.currency.map FieldMetadata.toJson) .nil))))

def InvoiceData.toJson (d : InvoiceData) : JsonVal :=
  .obj (.cons "invoiceNumber" (.str d.invoiceNumber)
    (.cons "invoiceDate" (.str d.invoiceDate)
      (.cons "shipper" d.shipper.toJson
        (.cons "consignee" d.consignee.toJson
          (.cons "totalDeclaredValue" (.num d.totalDeclaredValue)
            (.cons "currency" (.str d.currency)
              (.cons "lineItems"
                  (.arr (encodeArr LineItem.toJson d.lineItems))
                (optField "tables"
                    (d.tables.map (fun ts => .arr (encodeArr Table.toJson ts)))
                  (optField "fields"
                      (d.fields.map InvoiceFields.toJson) .nil)))))))))

/-!
Typed characterization of the confidence boost: the stored data is kept
verbatim except that every metadata entry's truthy (present and non-zero)
confidence becomes `0.99`.  `boostRec_toJson` below proves that the generic
JSON recursion of the source specializes to exactly this map on encoded
`InvoiceData`.
-/

def boostMeta (m : FieldMetadata) : FieldMetadata :=
  { m with confidence := m.confidence.map (fun c => if c == 0 then c else 99/100) }

def boostPartyFields (f : PartyFields) : PartyFields :=
  { name := f.name.map boostMeta, address := f.address.map boostMeta }

def boostParty (p : Party) : Party :=
  { p with fields := p.fields.map boostPartyFields }

def boostLineItemFields (f : LineItemFields) : LineItemFields :=
  { description := f.description.map boostMeta
    quantity := f.quantity.map boostMeta
    unitPrice := f.unitPrice.map boostMeta
    totalPrice := f.totalPrice.map boostMeta
    countryOfOrigin := f.countryOfOrigin.map boostMeta
    hsCode := f.hsCode.map boostMeta }

def boostLineItem (li : LineItem) : LineItem :=
  { li with fields := li.fields.map boostLineItemFields }

def boostInvoiceFields (f : InvoiceFields) : InvoiceFields :=
  { invoiceNumber := f.invoiceNumber.map boostMeta
    invoiceDate := f.invoiceDate.map boostMeta
    totalDeclaredValue := f.totalDeclaredValue.map boostMeta
    currency := f.currency.map boostMeta }

def boostInvoiceData (d : InvoiceData) : InvoiceData :=
  { d with
    shipper := boostParty d.shipper
    consignee := boostParty d.consignee
    lineItems := d.lineItems.map boostLineItem
    fields := d.fields.map boostInvoiceFields }

/-- The template-matching and confidence-adjustment core of
`_extractInvoiceData` (`geminiService.ts`), after the fixed mock response
has been normalized into `extractedData`:

* priority 1 — a pre-loaded template is returned with boosted confidence;
* priority 2 — a saved template whose vendor name matches the extracted
  shipper name case-insensitively is returned with boosted confidence;
* fallback — the extracted data is returned degraded, with no template
  name.

The returned invoice data is the JSON object graph the caller receives;
`none` models the error path (an exception thrown while degrading). -/
def reconcileTemplates (extractedData : InvoiceData)
    (templates : List VendorTemplate)
    (loadedTemplate : Option VendorTemplate) :
    Option (JsonVal × Option String) :=
  match loadedTemplate with
  | some t =>
      some (boostConfidence t.invoiceData.toJson, some t.vendorName)
  | none =>
      let vendorName := extractedData.shipper.name
      match templates.find?
          (fun t => t.vendorName.toLower == vendorName.toLower) with
      | some matchedTemplate =>
          some (boostConfidence matchedTemplate.invoiceData.toJson,
                some matchedTemplate.vendorName)
      | none =>
          (degradeInvoiceData extractedData.toJson).map (fun d => (d, none))

/-!
The extraction normalizer (`transformModelResponseToInvoiceData` in
`geminiService.ts`) and the shape of the machine-extraction response it
consumes.
-/

/-- Rendered pixel dimensions of one page (the `pageDimensions` array). -/
structure PageDim where
  width : ℚ
  height : ℚ
deriving DecidableEq

/-- One entry of a page's flat `prediction` list.  Field predictions carry
`ocr_text` and `score`; the `table_grid` prediction instead carries `page`,
`rows` and `columns`.  Absent properties are `none`. -/
structure Prediction where
  label : String
  ocr_text : Option String
  xmin : ℚ
  ymin : ℚ
  xmax : ℚ
  ymax : ℚ
  score : Option ℚ
  page : Option Nat
  rows : Option (List ℚ)
  columns : Option (List ℚ)
deriving DecidableEq

/-- One labelled, row/column-addressed table cell. -/
structure Cell where
  row : Nat
  col : Nat
  text : String
  label : String
  score : ℚ
  xmin : ℚ
  ymin : ℚ
  xmax : ℚ
  ymax : ℚ
deriving DecidableEq

/-- One labelled table of a page (`{cells, label}`). -/
structure RawTable where
  label : String
  cells : List Cell
deriving DecidableEq

/-- One `page_data` entry of the model response. -/
structure PageData where
  page : Nat
  tables : List RawTable
  prediction : List Prediction
deriving DecidableEq

/-- One `results` entry of the model response. -/
structure ResultEntry where
  page_data : List PageData
deriving DecidableEq

/-- The raw machine-extraction response. -/
structure ModelResponse where
  results : List ResultEntry
deriving DecidableEq

/-- Leading-decimal parser modelling JavaScript `parseFloat` on the inputs
arising here (optional leading whitespace, optional sign, decimal digits
with an optional fractional part); `none` models `NaN`. -/
def jsParseFloat (s : String) : Option ℚ :=
  let cs := s.data.dropWhile Char.isWhitespace
  let signAndRest : ℚ × List Char :=
    match cs with
    | '-' :: r => (-1, r)
    | '+' :: r => (1, r)
    | _ => (1, cs)
  let intPart := signAndRest.2.takeWhile Char.isDigit
  let afterInt := signAndRest.2.dropWhile Char.isDigit
  let fracPart : List Char :=
    match afterInt with
    | '.' :: r => r.takeWhile Char.isDigit
    | _ => []
  if intPart.isEmpty && fracPart.isEmpty then none
  else
    let intVal := intPart.foldl (fun a c => a * 10 + ((c.toNat : ℚ) - 48)) 0
    let fracVal := fracPart.foldr (fun c a => (((c.toNat : ℚ) - 48) + a) / 10) 0
    some (signAndRest.1 * (intVal + fracVal))

/-- `parseFloat(x) || 0` where `x` may be `undefined` (`parseFloat` of a
missing value is `NaN`, and `NaN || 0` is `0`). -/
def parseFloatOr0 (s : Option String) : ℚ :=
  match s with
  | none => 0
  | some t => (jsParseFloat t).getD 0

/-- `String(value).replace(/,/g, '')`: strip every comma. -/
def stripCommas (s : String) : String :=
  String.mk (s.data.filter (fun c => !(c == ',')))

/-- `findField` from `transformModelResponseToInvoiceData`: first
prediction in the (first page's) flat list whose label matches. -/
def findFieldIn (preds : List Prediction) (label : String) : Option Prediction :=
  preds.find? (fun p => p.label == label)

/-- `normalizeBbox`: divide the pixel coordinates by the page's pixel
dimensions and re-index the page from zero-based to one-based; `undefined`
when the page's dimensions are unknown. -/
def normalizeBboxRaw (pageDimensions : List PageDim) (pageNum : Nat)
    (xmin ymin xmax ymax : ℚ) : Option BoundingBox :=
  match pageDimensions[pageNum]? with
  | none => none
  | some dim =>
      some { page := (pageNum : Int) + 1
             x1 := xmin / dim.width
             y1 := ymin / dim.height
             x2 := xmax / dim.width
             y2 := ymax / dim.height }

/-- `createFieldMetadata`: confidence from the prediction's score, box from
`normalizeBbox`; both absent when the prediction is absent. -/
def createFieldMetadata (pageDimensions : List PageDim)
    (field : Option Prediction) (pageNum : Nat) : FieldMetadata :=
  { confidence := field.bind Prediction.score
    boundingBox := field.bind
      (fun p => normalizeBboxRaw pageDimensions pageNum p.xmin p.ymin p.xmax p.ymax) }

/-- The same for a table cell (`createFieldMetadata(cell, 0)`). -/
def cellFieldMetadata (pageDimensions : List PageDim) (cell : Cell) :
    FieldMetadata :=
  { confidence := some cell.score
    boundingBox := normalizeBboxRaw pageDimensions 0
      cell.xmin cell.ymin cell.xmax cell.ymax }

/-- The six line-item properties addressed by the cell-label mapping. -/
inductive LineItemProp : Type where
  | description
  | quantity
  | unitPrice
  | totalPrice
  | countryOfOrigin
  | hsCode
deriving DecidableEq

/-- The `fieldMapping` table of the cell loop. -/
def fieldMapping : String → Option LineItemProp
  | "description" => some .description
  | "quantity" => some .quantity
  | "unit_price" => some .unitPrice
  | "total_price" => some .totalPrice
  | "country_of_origin" => some .countryOfOrigin
  | "hs_code" => some .hsCode
  | _ => none

/-- The empty `fields` object `{}` of a fresh row. -/
def emptyLineItemFields : LineItemFields :=
  { description := none, quantity := none, unitPrice := none
    totalPrice := none, countryOfOrigin := none, hsCode := none }

/-- The fresh row object `{ fields: {} }`. -/
def emptyRow : LineItem :=
  { description := none, quantity := none, unitPrice := none
    totalPrice := none, countryOfOrigin := none, hsCode := none
    cdsOverrides := none, boundingBox := none
    fields := some emptyLineItemFields }

/-- Write one metadata entry of a row's `fields` object. -/
def setFieldsProp (prop : LineItemProp) (m : FieldMetadata)
    (f : LineItemFields) : LineItemFields :=
  match prop with
  | .description => { f with description := some m }
  | .quantity => { f with quantity := some m }
  | .unitPrice => { f with unitPrice := some m }
  | .totalPrice => { f with totalPrice := some m }
  | .countryOfOrigin => { f with countryOfOrigin := some m }
  | .hsCode => { f with hsCode := some m }

/-- `rows[cell.row][propName] = value; rows[cell.row].fields[propName] = …`:
numeric properties are parsed with commas stripped and default `0`, text
properties take the cell text verbatim; the metadata entry is
`createFieldMetadata(cell, 0)`. -/
def setRowProp (pageDimensions : List PageDim) (cell : Cell)
    (prop : LineItemProp) (li : LineItem) : LineItem :=
  let m := cellFieldMetadata pageDimensions cell
  let f := setFieldsProp prop m (li.fields.getD emptyLineItemFields)
  match prop with
  | .description => { li with description := some cell.text, fields := some f }
  | .quantity =>
      { li with quantity := some (parseFloatOr0 (some (stripCommas cell.text)))
                fields := some f }
  | .unitPrice =>
      { li with unitPrice := some (parseFloatOr0 (some (stripCommas cell.text)))
                fields := some f }
  | .totalPrice =>
      { li with totalPrice := some (parseFloatOr0 (some (stripCommas cell.text)))
                fields := some f }
  | .countryOfOrigin =>
      { li with countryOfOrigin := some cell.text, fields := some f }
  | .hsCode => { li with hsCode := some cell.text, fields := some f }

/-- Insert a fresh row keyed by its row index, keeping keys in ascending
order: a JavaScript object with integer-like keys enumerates them in
ascending numeric order (`Object.values`). -/
def rowsInsertSorted (r : Nat) (li : LineItem) :
    List (Nat × LineItem) → List (Nat × LineItem)
  | [] => [(r, li)]
  | (k, v) :: rest =>
      if r < k then (r, li) :: (k, v) :: rest
      else (k, v) :: rowsInsertSorted r li rest

/-- One iteration of the `cells.forEach` loop: create the row object if the
key is new, then write the mapped property (if the label is mapped). -/
def applyCell (pageDimensions : List PageDim)
    (rows : List (Nat × LineItem)) (cell : Cell) : List (Nat × LineItem) :=
  let rows :=
    if (rows.find? (fun p => p.1 == cell.row)).isNone then
      rowsInsertSorted cell.row emptyRow rows
    else rows
  match fieldMapping cell.label with
  | none => rows
  | some prop =>
      rows.map (fun p =>
        if p.1 == cell.row then (p.1, setRowProp pageDimensions cell prop p.2)
        else p)

/-- The whole cell loop: fold the cells of the `line_items` table into the
keyed row collection. -/
def buildRows (pageDimensions : List PageDim) (cells : List Cell) :
    List (Nat × LineItem) :=
  cells.foldl (applyCell pageDimensions) []

/-- The number of distinct row indices among a cell list (the number of row
objects the cell loop creates), counted in first-occurrence order. -/
def distinctRowCount (cells : List Cell) : Nat :=
  ((cells.map Cell.row).foldl
    (fun ks r => if r ∈ ks then ks else ks ++ [r]) []).length

/-- The body of `transformModelResponseToInvoiceData` applied to the first
page entry (the only one the source reads). -/
def transformPage (pg : PageData) (pageDimensions : List PageDim) :
    InvoiceData :=
    let prediction := pg.prediction
    let tables := pg.tables
    let findField := fun label => findFieldIn prediction label
    let meta := fun label =>
      createFieldMetadata pageDimensions (findField label) 0
    let textOf := fun label =>
      ((findField label).bind Prediction.ocr_text).getD ""
    let base : InvoiceData :=
      { invoiceNumber := textOf "invoice_id"
        invoiceDate := textOf "invoice_date"
        shipper :=
          { name := textOf "shipper_name"
            address := textOf "shipper_address"
            fields := some { name := some (meta "shipper_name")
                             address := some (meta "shipper_address") } }
        consignee :=
          { name := textOf "consignee_name"
            address := textOf "consignee_address"
            fields := some { name := some (meta "consignee_name")
                             address := some (meta "consignee_address") } }
        totalDeclaredValue :=
          parseFloatOr0 ((findField "total_amount").bind Prediction.ocr_text)
        currency := textOf "currency"
        lineItems := []
        tables := some []
        fields := some { invoiceNumber := some (meta "invoice_id")
                         invoiceDate := some (meta "invoice_date")
                         totalDeclaredValue := some (meta "total_amount")
                         currency := some (meta "currency") } }
    let withItems :=
      match tables.find? (fun t => t.label == "line_items") with
      | none => base
      | some lineItemsTable =>
          { base with
            lineItems :=
              (buildRows pageDimensions lineItemsTable.cells).map Prod.snd }
    let withGrid :=
      match findField "table_grid" with
      | none => withItems
      | some tg =>
          let pnum := tg.page.getD 0
          match pageDimensions[pnum]? with
          | none => withItems
          | some dim =>
              { withItems with
                tables := some
                  [{ boundingBox :=
                       { page := (pnum : Int) + 1
                         x1 := tg.xmin / dim.width
                         y1 := tg.ymin / dim.height
                         x2 := tg.xmax / dim.width
                         y2 := tg.ymax / dim.height }
                     rows := (tg.rows.getD []).map (fun y => y / dim.height)
                     columns := (tg.columns.getD []).map (fun x => x / dim.width) }] }
    withGrid

/-- `transformModelResponseToInvoiceData` from `geminiService.ts`.  Note
that the source reads only `results[0].page_data[0]`: every `findField`
lookup, the `line_items` table and the `table_grid` prediction come from
the first page entry alone, and all cell metadata is created with page
number `0`. -/
def transformModelResponseToInvoiceData (modelResponse : ModelResponse)
    (pageDimensions : List PageDim) : Option InvoiceData :=
  match modelResponse.results.head? with
  | none => none
  | some firstResult =>
  match firstResult.page_data.head? with
  | none => none
  | some pg => some (transformPage pg pageDimensions)

/-- Truncate a model response to its first result's first page entry; the
normalizer provably depends on nothing else. -/
def firstPageOnly (modelResponse : ModelResponse) : ModelResponse :=
  match modelResponse.results.head? with
  | none => { results := [] }
  | some firstResult =>
      match firstResult.page_data.head? with
      | none => { results := [{ page_data := [] }] }
      | some pg => { results := [{ page_data := [pg] }] }

/-!
The viewport transform and the pointer-gesture handlers of
`src/components/PdfViewer.tsx`.
-/

/-- The viewer's transform state: `scale` and the pan offset
(`transform.x`, `transform.y`). -/
structure ViewTransform where
  scale : ℚ
  x : ℚ
  y : ℚ
deriving DecidableEq

/-- `performZoom` from `PdfViewer.tsx`: frame the box so that its larger
screen dimension occupies 30% of the viewport's shorter dimension, capped
at 5×, and center it.  The guard (`isNaN` / zero base width) leaves the
transform unchanged.  Note the body reads neither `scale` nor `transform`:
the computed transform depends only on the box and the container / canvas
dimensions. -/
def performZoom (vt : ViewTransform) (box : BoundingBox)
    (containerWidth containerHeight baseCanvasWidth baseCanvasHeight : ℚ) :
    ViewTransform :=
  if baseCanvasWidth == 0 then vt
  else
    let boxWidth := (box.x2 - box.x1) * baseCanvasWidth
    let boxHeight := (box.y2 - box.y1) * baseCanvasHeight
    let targetBoxDisplaySize := min containerWidth containerHeight * (3/10)
    let scaleX := if boxWidth > 0 then targetBoxDisplaySize / boxWidth else 1
    let scaleY := if boxHeight > 0 then targetBoxDisplaySize / boxHeight else 1
    let newScale := min (min scaleX scaleY) 5
    let boxCenterX := (box.x1 + (box.x2 - box.x1) / 2) * baseCanvasWidth
    let boxCenterY := (box.y1 + (box.y2 - box.y1) / 2) * baseCanvasHeight
    { scale := newScale
      x := containerWidth / 2 - boxCenterX * newScale
      y := containerHeight / 2 - boxCenterY * newScale }

/-- The bounding-box gesture modes of `PdfViewer.tsx`. -/
inductive BboxMode : Type where
  | idle
  | drag
  | resizeTL
  | resizeTR
  | resizeBL
  | resizeBR
deriving DecidableEq

/-- The `bboxInteraction` state: gesture mode, target path, pointer-down
screen position, and a snapshot of the box at gesture start. -/
structure BboxInteraction where
  mode : BboxMode
  path : String
  startX : ℚ
  startY : ℚ
  startBox : BoundingBox
deriving DecidableEq

/-- The box-gesture branch of `handleMouseMove` in `PdfViewer.tsx`: the box
published to the data tree on one pointer-move tick.  The snapshot plus the
normalized delta is computed per mode, and then — still inside the move
handler — `x1/x2` and `y1/y2` are swapped whenever they are inverted.
`none` models the `idle` guard (no update published). -/
def handleBboxMouseMove (st : BboxInteraction)
    (scale canvasWidth canvasHeight clientX clientY : ℚ) :
    Option BoundingBox :=
  match st.mode with
  | .idle => none
  | mode =>
    let dx := (clientX - st.startX) / scale / canvasWidth
    let dy := (clientY - st.startY) / scale / canvasHeight
    let b := st.startBox
    let moved : BoundingBox :=
      match mode with
      | .idle => b
      | .drag => { b with x1 := b.x1 + dx, y1 := b.y1 + dy
                          x2 := b.x2 + dx, y2 := b.y2 + dy }
      | .resizeTL => { b with x1 := b.x1 + dx, y1 := b.y1 + dy }
      | .resizeTR => { b with x2 := b.x2 + dx, y1 := b.y1 + dy }
      | .resizeBL => { b with x1 := b.x1 + dx, y2 := b.y2 + dy }
      | .resizeBR => { b with x2 := b.x2 + dx, y2 := b.y2 + dy }
    let sx := if moved.x1 > moved.x2 then
                { moved with x1 := moved.x2, x2 := moved.x1 }
              else moved
    let sy := if sx.y1 > sx.y2 then { sx with y1 := sx.y2, y2 := sx.y1 }
              else sx
    some sy

/-- The behaviour the specification sentence ascribes to a pointer-move
tick, stated from the spec's words: the published box is the gesture-start
snapshot plus the accumulated delta, with no coordinate swap, so it may be
transiently inverted.  Used only to compare against the source-derived
`handleBboxMouseMove`. -/
def specMoveTickRaw (st : BboxInteraction)
    (scale canvasWidth canvasHeight clientX clientY : ℚ) :
    Option BoundingBox :=
  match st.mode with
  | .idle => none
  | mode =>
    let dx := (clientX - st.startX) / scale / canvasWidth
    let dy := (clientY - st.startY) / scale / canvasHeight
    let b := st.startBox
    some (match mode with
      | .idle => b
      | .drag => { b with x1 := b.x1 + dx, y1 := b.y1 + dy
                          x2 := b.x2 + dx, y2 := b.y2 + dy }
      | .resizeTL => { b with x1 := b.x1 + dx, y1 := b.y1 + dy }
      | .resizeTR => { b with x2 := b.x2 + dx, y1 := b.y1 + dy }
      | .resizeBL => { b with x1 := b.x1 + dx, y2 := b.y2 + dy }
      | .resizeBR => { b with x2 := b.x2 + dx, y2 := b.y2 + dy })

/-!
Table-gridline editing.  A completed edit is one of:

* a line drag ended by a release — the last `handleMouseMove` tick writes
  the dragged line's clamped coordinate, and `handleMouseUp` then sorts
  both `rows` and `columns` ascending;
* a double-click insertion (`handleDoubleClick`) — push the coordinate and
  sort the array it was pushed into (rows by default, columns with the
  modifier key);
* a deletion by index (`handleDeleteLine`) — `splice(lineIndex, 1)`.
-/

/-- `Math.max(0, Math.min(1, q))`. -/
def clamp01 (q : ℚ) : ℚ := max 0 (min 1 q)

/-- A completed gridline edit. -/
inductive GridEdit : Type where
  | dragRow (lineIndex : Nat) (delta : ℚ)
  | dragCol (lineIndex : Nat) (delta : ℚ)
  | insertRow (y : ℚ)
  | insertCol (x : ℚ)
  | deleteRow (lineIndex : Nat)
  | deleteCol (lineIndex : Nat)

/-- `array.sort((a, b) => a - b)`, modelled by insertion sort. -/
def sortAsc (l : List ℚ) : List ℚ := l.insertionSort (fun a b => a ≤ b)

/-- Apply one completed edit to a table, following `handleMouseMove` /
`handleMouseUp` / `handleDoubleClick` / `handleDeleteLine`. -/
def applyGridEdit (t : Table) : GridEdit → Table
  | .dragRow i δ =>
      let dragged := t.rows.set i (clamp01 ((t.rows.getD i 0) + δ))
      { t with rows := sortAsc dragged, columns := sortAsc t.columns }
  | .dragCol i δ =>
      let dragged := t.columns.set i (clamp01 ((t.columns.getD i 0) + δ))
      { t with rows := sortAsc t.rows, columns := sortAsc dragged }
  | .insertRow y => { t with rows := sortAsc (t.rows ++ [y]) }
  | .insertCol x => { t with columns := sortAsc (t.columns ++ [x]) }
  | .deleteRow i => { t with rows := t.rows.eraseIdx i }
  | .deleteCol i => { t with columns := t.columns.eraseIdx i }

/-- A finite sequence of completed gridline edits. -/
def applyGridEdits (t : Table) (es : List GridEdit) : Table :=
  es.foldl applyGridEdit t

/-!
The XML serializer's escape helper (`escapeXml` in the XML service):
`unsafe.replace(/[<>&'"]/g, c => …)` replaces the five special characters
by their entities, character by character; any non-string input yields the
empty string.
-/

/-- The per-character replacement of the regex callback. -/
def escapeChar (c : Char) : List Char :=
  if c = '<' then "&lt;".data
  else if c = '>' then "&gt;".data
  else if c = '&' then "&amp;".data
  else if c = '\'' then "&apos;".data
  else if c = '"' then "&quot;".data
  else [c]

/-- The whole replacement at the character-list level. -/
def escList (l : List Char) : List Char := (l.map escapeChar).flatten

/-- `escapeXml` on a string. -/
def escapeXml (s : String) : String := String.mk (escList s.data)

/-- `escapeXml` on an arbitrary value: the `typeof unsafe !== 'string'`
guard returns the empty string for every non-string input. -/
def escapeXmlAny : JsonVal → String
  | .str s => escapeXml s
  | _ => ""

/-- The five XML entities and the characters they escape. -/
def entityTable : List (List Char × Char) :=
  [("lt;".data, '<'), ("gt;".data, '>'), ("amp;".data, '&'),
   ("apos;".data, '\''), ("quot;".data, '"')]

/-- After a `&`, recognize the entity that follows and return the decoded
character together with the remaining input. -/
def findEntity (r : List Char) : Option (Char × List Char) :=
  (entityTable.find? (fun e => e.1.isPrefixOf r)).map
    (fun e => (e.2, r.drop e.1.length))

/-- Fuel-bounded inverse of `escList`, used to prove injectivity: entities
decode back to the characters they escape; a bare ampersand (which
`escList` never produces) is rejected. -/
def unescapeF : Nat → List Char → Option (List Char)
  | _, [] => some []
  | 0, _ :: _ => none
  | fuel + 1, c :: r =>
    if c = '&' then
      match findEntity r with
      | some p => (unescapeF fuel p.2).map (fun t => p.1 :: t)
      | none => none
    else (unescapeF fuel r).map (fun t => c :: t)

/-!
An explicit heap of JavaScript objects, used to state the frame property of
`boostConfidence` and `degradeInvoiceData`: both transforms first build a
fresh object graph with `JSON.parse(JSON.stringify(data))` and mutate only
that copy, so every object that existed before the call is left with
exactly its previous contents.

Primitives live in property slots; arrays and objects are heap nodes at
numeric addresses.  `Heap.next` is the allocation frontier: fresh nodes are
appended at `next`.
-/

/-- A JavaScript primitive value. -/
inductive JsLeaf : Type where
  | null
  | bool : Bool → JsLeaf
  | num : ℚ → JsLeaf
  | str : String → JsLeaf
deriving DecidableEq

/-- One property slot / array element: a primitive or a reference. -/
inductive HSlot : Type where
  | prim : JsLeaf → HSlot
  | ref : Nat → HSlot
deriving DecidableEq

/-- One heap object. -/
inductive HNode : Type where
  | arr : List HSlot → HNode
  | obj : List (String × HSlot) → HNode
deriving DecidableEq

/-- The heap: an allocation frontier and an association of addresses to
nodes. -/
structure Heap where
  next : Nat
  mem : List (Nat × HNode)
deriving DecidableEq

def Heap.lookup (h : Heap) (a : Nat) : Option HNode :=
  (h.mem.find? (fun p => p.1 == a)).map Prod.snd

/-- Overwrite the node stored at an existing address. -/
def Heap.set (h : Heap) (a : Nat) (nd : HNode) : Heap :=
  { h with mem := h.mem.map (fun p => if p.1 == a then (a, nd) else p) }

/-- Allocate a fresh node at the frontier. -/
def Heap.alloc (h : Heap) (nd : HNode) : Heap × Nat :=
  ({ next := h.next + 1, mem := h.mem ++ [(h.next, nd)] }, h.next)

/-- Every stored address lies below the frontier. -/
def Heap.wf (h : Heap) : Prop := ∀ p ∈ h.mem, p.1 < h.next

def leafToJson : JsLeaf → JsonVal
  | .null => .null
  | .bool b => .bool b
  | .num q => .num q
  | .str s => .str s

def JsonArr.ofList : List JsonVal → JsonArr
  | [] => .nil
  | v :: vs => .cons v (JsonArr.ofList vs)

def JsonObj.ofList : List (String × JsonVal) → JsonObj
  | [] => .nil
  | (k, v) :: rest => .cons k v (JsonObj.ofList rest)

/-- Read the value tree rooted at a slot (`JSON.stringify` followed by
`JSON.parse`, seen as producing the value); fuel bounds the depth, `none`
models exhaustion or a dangling reference. -/
def readSlot : Nat → Heap → HSlot → Option JsonVal
  | _, _, .prim l => some (leafToJson l)
  | 0, _, .ref _ => none
  | fuel + 1, h, .ref a =>
    match h.lookup a with
    | none => none
    | some (.arr es) =>
        (es.mapM (fun s => readSlot fuel h s)).map
          (fun vs => .arr (JsonArr.ofList vs))
    | some (.obj fs) =>
        (fs.mapM (fun p => (readSlot fuel h p.2).map (fun v => (p.1, v)))).map
          (fun ps => .obj (JsonObj.ofList ps))

mutual

/-- Build a fresh object graph for a JSON value (`JSON.parse` allocating
its result); every allocated node is at or above the old frontier and
references only nodes at or above the old frontier. -/
def allocTree : JsonVal → Heap → Heap × HSlot
  | .null, h => (h, .prim .null)
  | .bool b, h => (h, .prim (.bool b))
  | .num q, h => (h, .prim (.num q))
  | .str s, h => (h, .prim (.str s))
  | .arr es, h =>
      let p := allocArr es h
      let q := p.1.alloc (.arr p.2)
      (q.1, .ref q.2)
  | .obj fs, h =>
      let p := allocObj fs h
      let q := p.1.alloc (.obj p.2)
      (q.1, .ref q.2)

def allocArr : JsonArr → Heap → Heap × List HSlot
  | .nil, h => (h, [])
  | .cons v rest, h =>
      let p := allocTree v h
      let q := allocArr rest p.1
      (q.1, p.2 :: q.2)

def allocObj : JsonObj → Heap → Heap × List (String × HSlot)
  | .nil, h => (h, [])
  | .cons k v rest, h =>
      let p := allocTree v h
      let q := allocObj rest p.1
      (q.1, (k, p.2) :: q.2)

end

/-- JavaScript truthiness of a slot (a reference — an object — is always
truthy). -/
def HSlot.truthy : HSlot → Bool
  | .prim .null => false
  | .prim (.bool b) => b
  | .prim (.num q) => !(q == 0)
  | .prim (.str s) => !(s == "")
  | .ref _ => true

/-- `if (obj.confidence) obj.confidence = 0.99` on an object's slot list. -/
def setConfSlot (fields : List (String × HSlot)) : List (String × HSlot) :=
  if ((fields.find? (fun p => p.1 == "confidence")).map Prod.snd).any
      HSlot.truthy then
    fields.map (fun p =>
      if p.1 == "confidence" then (p.1, .prim (.num (99/100))) else p)
  else fields

/-- The mutating `recurse` of `boostConfidence`, on the heap: visit the
node at an address, rewrite a truthy `confidence` slot to `0.99`, then
recurse into every reference-valued slot (`Object.values`).  Primitive
slots return immediately (`typeof obj !== 'object'`). -/
def boostMut : Nat → Nat → Heap → Heap
  | 0, _, h => h
  | fuel + 1, a, h =>
    match h.lookup a with
    | none => h
    | some (.arr es) =>
        es.foldl (fun hh s =>
          match s with
          | .prim _ => hh
          | .ref b => boostMut fuel b hh) h
    | some (.obj fs) =>
        let fs2 := setConfSlot fs
        (fs2.map Prod.snd).foldl (fun hh s =>
          match s with
          | .prim _ => hh
          | .ref b => boostMut fuel b hh) (h.set a (.obj fs2))

/-- `recurse` applied to the copy's root slot. -/
def boostMutSlot (fuel : Nat) (s : HSlot) (h : Heap) : Heap :=
  match s with
  | .prim _ => h
  | .ref a => boostMut fuel a h

/-- `boostConfidence` on the heap: read the argument's value tree, allocate
a fresh copy, mutate only the copy, and return the copy's root. -/
def boostConfidenceHeap (fuel : Nat) (h : Heap) (s : HSlot) :
    Option (Heap × HSlot) :=
  (readSlot fuel h s).map (fun j =>
    let p := allocTree j h
    (boostMutSlot fuel p.2 p.1, p.2))

/-- Slot lookup `h[a][k]` (for an object node). -/
def getSlot (h : Heap) (a : Nat) (k : String) : Option HSlot :=
  match h.lookup a with
  | some (.obj fs) => (fs.find? (fun p => p.1 == k)).map Prod.snd
  | _ => none

/-- Property write on an object's slot list: replace or append. -/
def setSlotList (fs : List (String × HSlot)) (k : String) (s : HSlot) :
    List (String × HSlot) :=
  if (fs.find? (fun p => p.1 == k)).isSome then
    fs.map (fun p => if p.1 == k then (p.1, s) else p)
  else fs ++ [(k, s)]

/-- `h[a][k] = s` (no-op on a non-object node). -/
def setSlot (h : Heap) (a : Nat) (k : String) (s : HSlot) : Heap :=
  match h.lookup a with
  | some (.obj fs) => h.set a (.obj (setSlotList fs k s))
  | _ => h

/-- The mutation body of `degradeInvoiceData`, on the copy rooted at `a`:
the four property writes, each failing (`none`, a thrown `TypeError`) when
a path step is missing or of the wrong shape. -/
def degradeMut (h : Heap) (a : Nat) : Option Heap :=
  match getSlot h a "invoiceNumber" with
  | some (.prim (.str invNum)) =>
    let h1 := setSlot h a "invoiceNumber"
      (.prim (.str (String.mk (replaceFirst invNum.data "001".data "O01".data))))
    match getSlot h1 a "fields" with
    | some (.ref fa) =>
      match getSlot h1 fa "invoiceNumber" with
      | some (.ref ia) =>
        let h2 := setSlot h1 ia "confidence" (.prim (.num (78/100)))
        match getSlot h2 a "lineItems" with
        | some (.ref la) =>
          match h2.lookup la with
          | some (.arr (first :: _)) =>
            match first with
            | .ref li0 =>
              let h3 := setSlot h2 li0 "hsCode" (.prim (.str "8471.3O.OO"))
              match getSlot h3 li0 "fields" with
              | some (.ref fa2) =>
                match getSlot h3 fa2 "hsCode" with
                | some (.ref ha) =>
                    some (setSlot h3 ha "confidence" (.prim (.num (65/100))))
                | _ => none
              | _ => none
            | .prim _ => none
          | some (.arr []) => some h2
          | _ => none
        | _ => none
      | _ => none
    | _ => none
  | _ => none

/-- `degradeInvoiceData` on the heap: copy, then mutate only the copy. -/
def degradeInvoiceDataHeap (fuel : Nat) (h : Heap) (s : HSlot) :
    Option (Heap × HSlot) :=
  match readSlot fuel h s with
  | none => none
  | some j =>
    let p := allocTree j h
    match p.2 with
    | .prim _ => none
    | .ref a => (degradeMut p.1 a).map (fun h2 => (h2, p.2))

/-- A slot references only addresses at or above `n`. -/
def slotGE (n : Nat) : HSlot → Prop
  | .prim _ => True
  | .ref a => n ≤ a

/-- A node references only addresses at or above `n`. -/
def nodeGE (n : Nat) : HNode → Prop
  | .arr es => ∀ s ∈ es, slotGE n s
  | .obj fs => ∀ p ∈ fs, slotGE n p.2

/-- Every node stored at or above `n` references only addresses at or
above `n`: the fresh region is closed, so mutation started inside it stays
inside it. -/
def Heap.closedAbove (h : Heap) (n : Nat) : Prop :=
  ∀ a nd, n ≤ a → h.lookup a = some nd → nodeGE n nd

/-- Stated from the spec's words for claim C4 ("every field's confidence
forced to a near-maximum value"): force every *present* confidence to
`0.99`, including a confidence of `0`.  Used only to compare against the
source behaviour, which skips falsy confidences. -/
def forceMeta (m : FieldMetadata) : FieldMetadata :=
  { m with confidence := m.confidence.map (fun _ => (99 : ℚ)/100) }

/-- `forceMeta` applied across a whole `InvoiceData` (the claim's reading
of the confidence boost). -/
def forceConfidences (d : InvoiceData) : InvoiceData :=
  { d with
    shipper := { d.shipper with
      fields := d.shipper.fields.map (fun f =>
        { name := f.name.map forceMeta, address := f.address.map forceMeta }) }
    consignee := { d.consignee with
      fields := d.consignee.fields.map (fun f =>
        { name := f.name.map forceMeta, address := f.address.map forceMeta }) }
    lineItems := d.lineItems.map (fun li =>
      { li with fields := li.fields.map (fun f =>
          { description := f.description.map forceMeta
            quantity := f.quantity.map forceMeta
            unitPrice := f.unitPrice.map forceMeta
            totalPrice := f.totalPrice.map forceMeta
            countryOfOrigin := f.countryOfOrigin.map forceMeta
            hsCode := f.hsCode.map forceMeta }) })
    fields := d.fields.map (fun f =>
      { invoiceNumber := f.invoiceNumber.map forceMeta
        invoiceDate := f.invoiceDate.map forceMeta
        totalDeclaredValue := f.totalDeclaredValue.map forceMeta
        currency := f.currency.map forceMeta }) }

/-- Confidence of the invoice-number metadata inside an encoded result
(`data.fields.invoiceNumber.confidence`). -/
def confOfInvoiceNumber (v : JsonVal) : Option JsonVal :=
  ((v.getProp "fields").bind (fun f => f.getProp "invoiceNumber")).bind
    (fun m => m.getProp "confidence")

/-!
Concrete inputs used by witnesses and counterexamples.
-/

/-- A minimal extraction result. -/
def emptyExtracted : InvoiceData :=
  { invoiceNumber := "", invoiceDate := ""
    shipper := ⟨"", "", none⟩, consignee := ⟨"", "", none⟩
    totalDeclaredValue := 0, currency := "", lineItems := []
    tables := none, fields := none }

/-- A preselected template whose stored invoice-number metadata carries a
confidence of `0`. -/
def zeroConfTemplate : VendorTemplate :=
  { id := "t0", vendorName := "Vendor A"
    invoiceData :=
      { invoiceNumber := "INV", invoiceDate := ""
        shipper := ⟨"Vendor A", "", none⟩, consignee := ⟨"", "", none⟩
        totalDeclaredValue := 0, currency := "", lineItems := []
        tables := none
        fields := some ⟨some ⟨none, some 0⟩, none, none, none⟩ } }

/-- A box used by concrete instantiations. -/
def witnessBox : BoundingBox :=
  { page := 1, x1 := 1/10, y1 := 1/10, x2 := 3/10, y2 := 2/10 }

/-- A one-field prediction helper for concrete responses. -/
def mkPred (label : String) (text : String) : Prediction :=
  { label := label, ocr_text := some text, xmin := 0, ymin := 0, xmax := 1
    ymax := 1, score := some 1, page := none, rows := none, columns := none }

/-- First page entry of the two-page counterexample response: no
`currency` prediction. -/
def pageWithoutCurrency : PageData :=
  { page := 0, tables := [], prediction := [mkPred "invoice_id" "INV-1"] }

/-- Second page entry: carries the `currency` prediction. -/
def pageWithCurrency : PageData :=
  { page := 1, tables := [], prediction := [mkPred "currency" "USD"] }

/-- A response whose `currency` label appears only on the second page
entry. -/
def twoPageResponse : ModelResponse :=
  { results := [{ page_data := [pageWithoutCurrency, pageWithCurrency] }] }

def twoPageDims : List PageDim := [⟨1, 1⟩, ⟨1, 1⟩]

/-- A page entry with no predictions and no tables at all. -/
def emptyPage : PageData := { page := 0, tables := [], prediction := [] }

/-- A response in which every named field is absent. -/
def emptyResponse : ModelResponse := { results := [{ page_data := [emptyPage] }] }

/-- Every bounding box attached to a row's `hsCode` metadata lies on page
1 (all cell metadata is created with page number `0`, re-indexed to `1`). -/
def hsOk (li : LineItem) : Prop :=
  ∀ f, li.fields = some f → ∀ m, f.hsCode = some m →
    ∀ bb, m.boundingBox = some bb → bb.page = 1

/-- One `description` cell in row `r`. -/
def liCell (r : Nat) : Cell :=
  { row := r, col := 1, text := "X", label := "description", score := 1
    xmin := 0, ymin := 0, xmax := 1, ymax := 1 }

/-- A `table_grid` prediction placed on page `p`. -/
def gridPred (p : Nat) : Prediction :=
  { label := "table_grid", ocr_text := none, xmin := 0, ymin := 0, xmax := 1
    ymax := 1, score := none, page := some p, rows := some [0]
    columns := some [0] }

/-- A page entry carrying a one-row `line_items` table and a `table_grid`
prediction. -/
def c2Page (p : Nat) : PageData :=
  { page := p, tables := [⟨"line_items", [liCell 1]⟩]
    prediction := [gridPred p] }

/-- A two-page response: a `line_items` table and a `table_grid` on each
page. -/
def c2Response : ModelResponse := ⟨[⟨[c2Page 0, c2Page 1]⟩]⟩

def c2Dims : List PageDim := [⟨1, 1⟩, ⟨1, 1⟩]

/-- A one-object heap whose object carries a falsy confidence. -/
def boostWitnessHeap : Heap :=
  { next := 1, mem := [(0, .obj [("confidence", .prim (.num 0))])] }

/-- A heap holding a minimal invoice-shaped object graph. -/
def degradeWitnessHeap : Heap :=
  { next := 4
    mem := [(0, .obj [("invoiceNumber", .prim (.str "A001")),
                      ("fields", .ref 1), ("lineItems", .ref 2)]),
            (1, .obj [("invoiceNumber", .ref 3)]),
            (2, .arr []),
            (3, .obj [])] }

/-!
## Theorems
-/

/-- Claim C8: `frameRegion` (`performZoom`) is idempotent, and — whenever
its guard passes (non-zero base canvas width) — the transform it computes
depends only on the box and the viewport / page dimensions, not on the
scale and pan in effect before the call. -/
theorem c8_performZoom_idempotent (vt : ViewTransform) (box : BoundingBox)
    (cw ch bw bh : ℚ) :
    performZoom (performZoom vt box cw ch bw bh) box cw ch bw bh =
      performZoom vt box cw ch bw bh ∧
    (bw ≠ 0 → ∀ vt2 : ViewTransform,
      performZoom vt box cw ch bw bh = performZoom vt2 box cw ch bw bh) := by
  by_cases h : bw = 0
  · refine ⟨?_, fun hne => absurd h hne⟩
    simp [performZoom, h]
  · refine ⟨?_, fun _ vt2 => ?_⟩ <;> simp [performZoom, h]

/-- Witness for C8 at a concrete transform, box and dimensions. -/
theorem c8_witness :
    performZoom (performZoom ⟨1, 0, 0⟩ witnessBox 100 100 50 50)
        witnessBox 100 100 50 50 =
      performZoom ⟨1, 0, 0⟩ witnessBox 100 100 50 50 ∧
    performZoom ⟨1, 0, 0⟩ witnessBox 100 100 50 50 =
      performZoom ⟨2, 3, 4⟩ witnessBox 100 100 50 50 :=
  ⟨(c8_performZoom_idempotent ⟨1, 0, 0⟩ witnessBox 100 100 50 50).1,
   (c8_performZoom_idempotent ⟨1, 0, 0⟩ witnessBox 100 100 50 50).2
     (by norm_num) ⟨2, 3, 4⟩⟩

/-- Claim C3, counterexample: at a concrete resize gesture whose delta
drags the corner past the opposite edge, the box published by the
pointer-move handler is already normalized (`x1 ≤ x2`), whereas the claim
says the mid-gesture box is the snapshot plus the delta and may stay
inverted (`specMoveTickRaw`).  The two differ, refuting the claim that the
swap happens only at pointer-up. -/
theorem c3_counterexample :
    handleBboxMouseMove
        ⟨.resizeTL, "p", 0, 0, ⟨1, 1/5, 1/5, 2/5, 2/5⟩⟩ 1 1 1 (3/10) 0 =
      some ⟨1, 2/5, 1/5, 1/2, 2/5⟩ ∧
    specMoveTickRaw
        ⟨.resizeTL, "p", 0, 0, ⟨1, 1/5, 1/5, 2/5, 2/5⟩⟩ 1 1 1 (3/10) 0 =
      some ⟨1, 1/2, 1/5, 2/5, 2/5⟩ ∧
    (⟨1, 2/5, 1/5, 1/2, 2/5⟩ : BoundingBox) ≠ ⟨1, 1/2, 1/5, 2/5, 2/5⟩ := by
  refine ⟨?_, ?_, ?_⟩ <;>
    norm_num [handleBboxMouseMove, specMoveTickRaw, BoundingBox.mk.injEq]

/-- Claim C3, amended: the coordinate normalization is applied on every
pointer-move tick, not at pointer-up — each box the gesture publishes to
the data tree already satisfies `x1 ≤ x2` and `y1 ≤ y2`, so the box is
never transiently inverted (and `handleMouseUp` performs no box
normalization at all). -/
theorem c3_amended_moveTick_normalized (st : BboxInteraction)
    (scale cw ch cx cy : ℚ) (b : BoundingBox)
    (h : handleBboxMouseMove st scale cw ch cx cy = some b) :
    b.x1 ≤ b.x2 ∧ b.y1 ≤ b.y2 := by
  cases hm : st.mode <;> simp only [handleBboxMouseMove, hm] at h
  case idle => exact absurd h (by simp)
  all_goals
    rw [Option.some.injEq] at h
    subst h
    constructor <;> (split_ifs <;> simp_all <;> linarith)

/-- Witness for the amended C3 at a concrete drag tick. -/
theorem c3_witness :
    (⟨1/5, 3/10, 1/5, 3/10⟩ : ℚ × ℚ × ℚ × ℚ) = ⟨1/5, 3/10, 1/5, 3/10⟩ ∧
    ((1 : ℚ)/5 ≤ 3/10 ∧ (1 : ℚ)/5 ≤ 3/10) :=
  ⟨rfl,
   c3_amended_moveTick_normalized
     ⟨.drag, "p", 0, 0, ⟨1, 1/10, 1/10, 1/5, 1/5⟩⟩ 1 1 1 (1/10) (1/10)
     ⟨1, 1/5, 1/5, 3/10, 3/10⟩
     (by norm_num [handleBboxMouseMove, BoundingBox.mk.injEq])⟩

/-- `array.sort((a,b) => a - b)` produces an ascending array. -/
theorem sortAsc_sorted (l : List ℚ) : List.Sorted (· ≤ ·) (sortAsc l) :=
  List.sorted_insertionSort _ l

/-- Removing an element by index preserves ascending order. -/
theorem eraseIdx_sorted (l : List ℚ) (i : Nat)
    (h : List.Sorted (· ≤ ·) l) : List.Sorted (· ≤ ·) (l.eraseIdx i) :=
  List.Pairwise.sublist (List.eraseIdx_sublist l i) h

/-- One completed gridline edit preserves the sortedness of both line
families (drag-release re-establishes it outright by sorting both). -/
theorem applyGridEdit_sorted (t : Table) (e : GridEdit)
    (hr : List.Sorted (· ≤ ·) t.rows)
    (hc : List.Sorted (· ≤ ·) t.columns) :
    List.Sorted (· ≤ ·) (applyGridEdit t e).rows ∧
      List.Sorted (· ≤ ·) (applyGridEdit t e).columns := by
  cases e <;>
    simp only [applyGridEdit] <;>
    refine ⟨?_, ?_⟩ <;>
    first
      | exact sortAsc_sorted _
      | exact hr
      | exact hc
      | exact eraseIdx_sorted _ _ hr
      | exact eraseIdx_sorted _ _ hc

/-- Claim C6, counterexample: the claim quantifies over every table, but a
table whose `rows` array is initially out of order stays out of order when
the only edit performed is a deletion on the other axis —
`handleDeleteLine` splices without sorting. -/
theorem c6_counterexample :
    ¬ List.Sorted (· ≤ ·)
        (applyGridEdits ⟨⟨1, 0, 0, 1, 1⟩, [1, 0], [0]⟩ [.deleteCol 0]).rows := by
  decide

/-- Claim C6, amended: for every table whose `rows` and `columns` are
sorted ascending (the data-model invariant for normalizer-produced
tables), every finite sequence of completed gridline edits — drags ended by
release, double-click insertions, deletions by index — leaves both arrays
non-decreasing. -/
theorem c6_amended_gridlines_sorted (t : Table) (es : List GridEdit)
    (hr : List.Sorted (· ≤ ·) t.rows)
    (hc : List.Sorted (· ≤ ·) t.columns) :
    List.Sorted (· ≤ ·) (applyGridEdits t es).rows ∧
      List.Sorted (· ≤ ·) (applyGridEdits t es).columns := by
  induction es generalizing t with
  | nil => exact ⟨hr, hc⟩
  | cons e es ih =>
      have h := applyGridEdit_sorted t e hr hc
      simpa only [applyGridEdits, List.foldl_cons] using
        ih (applyGridEdit t e) h.1 h.2

/-- Witness for the amended C6 at a concrete table and edit sequence. -/
theorem c6_witness :
    List.Sorted (· ≤ ·)
        (applyGridEdits ⟨⟨1, 0, 0, 1, 1⟩, [0, 1], [0]⟩
          [.insertRow 2, .deleteRow 0, .insertCol 3]).rows ∧
    List.Sorted (· ≤ ·)
        (applyGridEdits ⟨⟨1, 0, 0, 1, 1⟩, [0, 1], [0]⟩
          [.insertRow 2, .deleteRow 0, .insertCol 3]).columns :=
  c6_amended_gridlines_sorted ⟨⟨1, 0, 0, 1, 1⟩, [0, 1], [0]⟩
    [.insertRow 2, .deleteRow 0, .insertCol 3] (by decide) (by decide)

/-- The per-character escape is a homomorphism at the list level. -/
theorem escList_append (l1 l2 : List Char) :
    escList (l1 ++ l2) = escList l1 ++ escList l2 := by
  simp [escList]

theorem findEntity_lt (x : List Char) :
    findEntity ('l' :: 't' :: ';' :: x) = some ('<', x) := by
  simp [findEntity, entityTable, List.isPrefixOf]

theorem findEntity_gt (x : List Char) :
    findEntity ('g' :: 't' :: ';' :: x) = some ('>', x) := by
  simp [findEntity, entityTable, List.isPrefixOf]

theorem findEntity_amp (x : List Char) :
    findEntity ('a' :: 'm' :: 'p' :: ';' :: x) = some ('&', x) := by
  simp [findEntity, entityTable, List.isPrefixOf]

theorem findEntity_apos (x : List Char) :
    findEntity ('a' :: 'p' :: 'o' :: 's' :: ';' :: x) = some ('\'', x) := by
  simp [findEntity, entityTable, List.isPrefixOf]

theorem findEntity_quot (x : List Char) :
    findEntity ('q' :: 'u' :: 'o' :: 't' :: ';' :: x) = some ('"', x) := by
  simp [findEntity, entityTable, List.isPrefixOf]

/-- Decoding inverts the escape given enough fuel: the five entities decode
to the characters they escape and every other character is literal. -/
theorem unescape_escList (l : List Char) (fuel : Nat)
    (hfuel : (escList l).length ≤ fuel) :
    unescapeF fuel (escList l) = some l := by
  induction l generalizing fuel with
  | nil => cases fuel <;> rfl
  | cons c l ih =>
    have hsplit : escList (c :: l) = escapeChar c ++ escList l := by
      simp [escList]
    have hlen : 1 ≤ (escapeChar c).length := by
      by_cases h1 : c = '<' <;> by_cases h2 : c = '>' <;>
        by_cases h3 : c = '&' <;> by_cases h4 : c = '\'' <;>
        by_cases h5 : c = '"' <;> simp [escapeChar, h1, h2, h3, h4, h5]
    rw [hsplit] at hfuel ⊢
    cases fuel with
    | zero =>
        exfalso
        simp only [List.length_append] at hfuel
        omega
    | succ f =>
      have hf : (escList l).length ≤ f := by
        simp only [List.length_append] at hfuel
        omega
      by_cases h1 : c = '<'
      · subst h1
        show unescapeF (f + 1) ('&' :: 'l' :: 't' :: ';' :: escList l) = _
        rw [unescapeF, if_pos rfl, findEntity_lt]
        simp [ih f hf]
      by_cases h2 : c = '>'
      · subst h2
        show unescapeF (f + 1) ('&' :: 'g' :: 't' :: ';' :: escList l) = _
        rw [unescapeF, if_pos rfl, findEntity_gt]
        simp [ih f hf]
      by_cases h3 : c = '&'
      · subst h3
        show unescapeF (f + 1) ('&' :: 'a' :: 'm' :: 'p' :: ';' :: escList l) = _
        rw [unescapeF, if_pos rfl, findEntity_amp]
        simp [ih f hf]
      by_cases h4 : c = '\''
      · subst h4
        show unescapeF (f + 1) ('&' :: 'a' :: 'p' :: 'o' :: 's' :: ';' :: escList l) = _
        rw [unescapeF, if_pos rfl, findEntity_apos]
        simp [ih f hf]
      by_cases h5 : c = '"'
      · subst h5
        show unescapeF (f + 1) ('&' :: 'q' :: 'u' :: 'o' :: 't' :: ';' :: escList l) = _
        rw [unescapeF, if_pos rfl, findEntity_quot]
        simp [ih f hf]
      · have hch : escapeChar c = [c] := by
          simp [escapeChar, h1, h2, h3, h4, h5]
        rw [hch]
        show unescapeF (f + 1) (c :: escList l) = some (c :: l)
        rw [unescapeF, if_neg h3, ih f hf]
        rfl

/-- Claim C9: the XML escape maps the five special characters to their
entities and every other character to itself, is a string homomorphism,
is injective, and returns the empty string on every non-string input. -/
theorem c9_escapeXml_spec :
    (escapeXml (String.mk ['<']) = "&lt;" ∧
     escapeXml (String.mk ['>']) = "&gt;" ∧
     escapeXml (String.mk ['&']) = "&amp;" ∧
     escapeXml (String.mk ['\'']) = "&apos;" ∧
     escapeXml (String.mk ['"']) = "&quot;") ∧
    (∀ c : Char, c ≠ '<' → c ≠ '>' → c ≠ '&' → c ≠ '\'' → c ≠ '"' →
      escapeXml (String.mk [c]) = String.mk [c]) ∧
    (∀ s t : String, escapeXml (s ++ t) = escapeXml s ++ escapeXml t) ∧
    (∀ s t : String, escapeXml s = escapeXml t → s = t) ∧
    (∀ v : JsonVal, (∀ s, v ≠ JsonVal.str s) → escapeXmlAny v = "") := by
  refine ⟨by decide, ?_, ?_, ?_, ?_⟩
  · intro c h1 h2 h3 h4 h5
    simp [escapeXml, escList, escapeChar, h1, h2, h3, h4, h5]
  · intro s t
    cases s with
    | mk l1 =>
      cases t with
      | mk l2 =>
        show String.mk (escList (l1 ++ l2)) =
          String.mk (escList l1 ++ escList l2)
        rw [escList_append]
  · intro s t h
    cases s with
    | mk l1 =>
    cases t with
    | mk l2 =>
      have h2 : escList l1 = escList l2 := by
        have hd := congrArg String.data h
        simpa [escapeXml] using hd
      have hle : (escList l2).length ≤ (escList l1).length :=
        le_of_eq (by rw [h2])
      have h3 : some l1 = some l2 := by
        rw [← unescape_escList l1 (escList l1).length le_rfl,
            ← unescape_escList l2 (escList l1).length hle, h2]
      exact congrArg String.mk (by simpa using h3)
  · intro v hv
    cases v with
    | str s => exact absurd rfl (hv s)
    | null => rfl
    | bool b => rfl
    | num q => rfl
    | arr a => rfl
    | obj o => rfl

/-- Witness for C9 at concrete characters, strings and a non-string
value. -/
theorem c9_witness :
    escapeXml (String.mk ['x']) = String.mk ['x'] ∧
    escapeXml ("a<" ++ "b") = escapeXml "a<" ++ escapeXml "b" ∧
    ("q" : String) = "q" ∧
    escapeXmlAny (JsonVal.num 3) = "" :=
  ⟨c9_escapeXml_spec.2.1 'x' (by decide) (by decide) (by decide) (by decide)
      (by decide),
   c9_escapeXml_spec.2.2.1 "a<" "b",
   c9_escapeXml_spec.2.2.2.1 "q" "q" rfl,
   c9_escapeXml_spec.2.2.2.2 (JsonVal.num 3)
     (fun s h => JsonVal.noConfusion h)⟩

/-- The boost recursion leaves a falsy value unchanged (falsy values are
leaves). -/
theorem boostRec_untruthy (v : JsonVal) (h : v.truthy = false) :
    boostRec v = v := by
  cases v <;> simp_all [JsonVal.truthy, boostRec]

/-- `0.99` is truthy. -/
theorem truthyNinetyNine : JsonVal.truthy (.num (99/100)) = true := by
  simp [JsonVal.truthy]

mutual

theorem boostRec_idem : (v : JsonVal) → boostRec (boostRec v) = boostRec v
  | .null => rfl
  | .bool _ => rfl
  | .num _ => rfl
  | .str _ => rfl
  | .arr es => by rw [boostRec, boostRec, boostArr_idem es]
  | .obj fs => by rw [boostRec, boostRec, boostObj_idem fs]

theorem boostArr_idem : (es : JsonArr) → boostArr (boostArr es) = boostArr es
  | .nil => rfl
  | .cons v rest => by
      rw [boostArr, boostArr, boostRec_idem v, boostArr_idem rest]

theorem boostObj_idem : (fs : JsonObj) → boostObj (boostObj fs) = boostObj fs
  | .nil => rfl
  | .cons k v rest => by
      by_cases hc : (k == "confidence" && v.truthy) = true
      · rw [boostObj, if_pos hc, boostObj]
        have hagain : (k == "confidence" &&
            JsonVal.truthy (.num (99/100))) = true := by
          rw [truthyNinetyNine]
          simp_all
        rw [if_pos hagain, boostObj_idem rest]
      · rw [boostObj, if_neg hc]
        cases hk : (k == "confidence") with
        | false =>
            rw [boostObj]
            have hneg : (k == "confidence" &&
                (boostRec v).truthy) = true → False := by
              simp [hk]
            rw [if_neg hneg, boostRec_idem v, boostObj_idem rest]
        | true =>
            have hv : v.truthy = false := by
              rcases Bool.and_eq_false_iff.mp
                (Bool.not_eq_true _ ▸ hc) with h | h
              · rw [hk] at h; cases h
              · exact h
            rw [boostRec_untruthy v hv, boostObj]
            rw [if_neg hc, boostRec_untruthy v hv, boostObj_idem rest]

end

/-- Claim C7: applying the confidence-boost transform twice to an
`InvoiceData` value yields the same result as applying it once. -/
theorem c7_boostConfidence_idempotent (d : InvoiceData) :
    boostConfidence (boostConfidence d.toJson) = boostConfidence d.toJson := by
  simp only [boostConfidence, deepCopy]
  exact boostRec_idem d.toJson

/-!
The generic JSON recursion of `boostConfidence` specializes, on encoded
`InvoiceData`, to the typed map `boostInvoiceData` ("verbatim except that
every present non-zero confidence becomes 0.99"); `"confidence"` occurs as
a key only inside encoded `FieldMetadata`.
-/

theorem boostRec_num (q : ℚ) : boostRec (.num q) = .num q := rfl

theorem boostRec_str (s : String) : boostRec (.str s) = .str s := rfl

theorem boostRec_arr (es : JsonArr) : boostRec (.arr es) = .arr (boostArr es) :=
  rfl

theorem boostRec_obj (fs : JsonObj) : boostRec (.obj fs) = .obj (boostObj fs) :=
  rfl

theorem boostObj_nil : boostObj .nil = .nil := rfl

/-- `boostObj` on a mandatory non-`confidence` key. -/
theorem boostObj_cons (k : String) (hk : (k == "confidence") = false)
    (v : JsonVal) (rest : JsonObj) :
    boostObj (.cons k v rest) = .cons k (boostRec v) (boostObj rest) := by
  simp [boostObj, hk]

/-- `boostObj` distributes over an optional field whose key is not
`confidence`. -/
theorem boostObj_optField (k : String) (hk : (k == "confidence") = false)
    (v : Option JsonVal) (rest : JsonObj) :
    boostObj (optField k v rest) =
      optField k (v.map boostRec) (boostObj rest) := by
  cases v <;> simp [optField, boostObj, hk]

theorem boostRec_bbox (b : BoundingBox) : boostRec b.toJson = b.toJson := by
  rw [BoundingBox.toJson, boostRec_obj,
    boostObj_cons _ (by decide), boostObj_cons _ (by decide),
    boostObj_cons _ (by decide), boostObj_cons _ (by decide),
    boostObj_cons _ (by decide), boostObj_nil,
    boostRec_num, boostRec_num, boostRec_num, boostRec_num, boostRec_num]

theorem opt_map_id_json (f : α → JsonVal) (h : ∀ x, boostRec (f x) = f x)
    (o : Option α) : (o.map f).map boostRec = o.map f := by
  cases o <;> simp only [Option.map_none', Option.map_some', h]

theorem optField_none (k : String) (rest : JsonObj) :
    optField k none rest = rest := rfl

theorem optField_some (k : String) (v : JsonVal) (rest : JsonObj) :
    optField k (some v) rest = .cons k v rest := rfl

theorem boostRec_meta (m : FieldMetadata) :
    boostRec m.toJson = (boostMeta m).toJson := by
  rcases m with ⟨bb, conf⟩
  have hsplit : boostObj (optField "boundingBox"
        (bb.map BoundingBox.toJson) .nil) =
      optField "boundingBox" (bb.map BoundingBox.toJson) .nil := by
    rw [boostObj_optField _ (by decide), boostObj_nil,
      opt_map_id_json _ (fun b => boostRec_bbox b) bb]
  cases conf with
  | none =>
      simp only [FieldMetadata.toJson, boostMeta, Option.map_none',
        optField_none, boostRec_obj, hsplit]
  | some c =>
      by_cases hc : c = 0
      · subst hc
        simp [FieldMetadata.toJson, boostMeta, optField_some, boostRec_obj,
          boostObj, JsonVal.truthy, boostRec_num, hsplit]
      · simp [FieldMetadata.toJson, boostMeta, optField_some, boostRec_obj,
          boostObj, JsonVal.truthy, hc, boostRec_num, hsplit]

theorem opt_map_meta (o : Option FieldMetadata) :
    (o.map FieldMetadata.toJson).map boostRec =
      (o.map boostMeta).map FieldMetadata.toJson := by
  cases o <;> simp only [Option.map_none', Option.map_some', boostRec_meta]

/-- `boostArr` on an encoded list, when the element encoding commutes. -/
theorem boostArr_encodeArr (f : α → JsonVal) (g : α → α)
    (h : ∀ x, boostRec (f x) = f (g x)) :
    ∀ l : List α, boostArr (encodeArr f l) = encodeArr f (l.map g)
  | [] => rfl
  | x :: xs => by
      rw [List.map_cons, encodeArr, encodeArr, boostArr, h x,
        boostArr_encodeArr f g h xs]

theorem boostRec_partyFields (f : PartyFields) :
    boostRec f.toJson = (boostPartyFields f).toJson := by
  rw [PartyFields.toJson, boostRec_obj,
    boostObj_optField _ (by decide), boostObj_optField _ (by decide),
    boostObj_nil, opt_map_meta, opt_map_meta]
  rfl

theorem opt_map_partyFields (o : Option PartyFields) :
    (o.map PartyFields.toJson).map boostRec =
      (o.map boostPartyFields).map PartyFields.toJson := by
  cases o <;>
    simp only [Option.map_none', Option.map_some', boostRec_partyFields]

theorem boostRec_party (p : Party) :
    boostRec p.toJson = (boostParty p).toJson := by
  rw [Party.toJson, boostRec_obj,
    boostObj_cons _ (by decide), boostObj_cons _ (by decide),
    boostObj_optField _ (by decide), boostObj_nil,
    boostRec_str, boostRec_str, opt_map_partyFields]
  rfl

theorem boostRec_lineItemFields (f : LineItemFields) :
    boostRec f.toJson = (boostLineItemFields f).toJson := by
  rw [LineItemFields.toJson, boostRec_obj,
    boostObj_optField _ (by decide), boostObj_optField _ (by decide),
    boostObj_optField _ (by decide), boostObj_optField _ (by decide),
    boostObj_optField _ (by decide), boostObj_optField _ (by decide),
    boostObj_nil, opt_map_meta, opt_map_meta, opt_map_meta, opt_map_meta,
    opt_map_meta, opt_map_meta]
  rfl

theorem boostRec_strArr (l : List String) :
    boostRec (.arr (encodeArr JsonVal.str l)) = .arr (encodeArr JsonVal.str l) := by
  rw [boostRec_arr, boostArr_encodeArr JsonVal.str id (fun _ => rfl), List.map_id]

theorem opt_map_lineItemFields (o : Option LineItemFields) :
    (o.map LineItemFields.toJson).map boostRec =
      (o.map boostLineItemFields).map LineItemFields.toJson := by
  cases o <;>
    simp only [Option.map_none', Option.map_some', boostRec_lineItemFields]

theorem boostRec_lineItem (li : LineItem) :
    boostRec li.toJson = (boostLineItem li).toJson := by
  rw [LineItem.toJson, boostRec_obj,
    boostObj_optField _ (by decide), boostObj_optField _ (by decide),
    boostObj_optField _ (by decide), boostObj_optField _ (by decide),
    boostObj_optField _ (by decide), boostObj_optField _ (by decide),
    boostObj_optField _ (by decide), boostObj_optField _ (by decide),
    boostObj_optField _ (by decide), boostObj_nil,
    opt_map_id_json _ (fun s => boostRec_str s) li.description,
    opt_map_id_json _ (fun q => boostRec_num q) li.quantity,
    opt_map_id_json _ (fun q => boostRec_num q) li.unitPrice,
    opt_map_id_json _ (fun q => boostRec_num q) li.totalPrice,
    opt_map_id_json _ (fun s => boostRec_str s) li.countryOfOrigin,
    opt_map_id_json _ (fun s => boostRec_str s) li.hsCode,
    opt_map_id_json _ (fun l => boostRec_strArr l) li.cdsOverrides,
    opt_map_id_json _ (fun b => boostRec_bbox b) li.boundingBox,
    opt_map_lineItemFields]
  rfl

theorem boostRec_table (t : Table) : boostRec t.toJson = t.toJson := by
  rw [Table.toJson, boostRec_obj,
    boostObj_cons _ (by decide), boostObj_cons _ (by decide),
    boostObj_cons _ (by decide), boostObj_nil, boostRec_bbox,
    boostRec_arr, boostRec_arr,
    boostArr_encodeArr JsonVal.num id (fun _ => rfl),
    boostArr_encodeArr JsonVal.num id (fun _ => rfl),
    List.map_id, List.map_id]

theorem boostRec_invoiceFields (f : InvoiceFields) :
    boostRec f.toJson = (boostInvoiceFields f).toJson := by
  rw [InvoiceFields.toJson, boostRec_obj,
    boostObj_optField _ (by decide), boostObj_optField _ (by decide),
    boostObj_optField _ (by decide), boostObj_optField _ (by decide),
    boostObj_nil, opt_map_meta, opt_map_meta, opt_map_meta, opt_map_meta]
  rfl

theorem boostRec_tableArr (ts : List Table) :
    boostRec (.arr (encodeArr Table.toJson ts)) =
      .arr (encodeArr Table.toJson ts) := by
  rw [boostRec_arr, boostArr_encodeArr Table.toJson id
      (fun t => by rw [boostRec_table t, id]), List.map_id]

theorem opt_map_invoiceFields (o : Option InvoiceFields) :
    (o.map InvoiceFields.toJson).map boostRec =
      (o.map boostInvoiceFields).map InvoiceFields.toJson := by
  cases o <;>
    simp only [Option.map_none', Option.map_some', boostRec_invoiceFields]

/-- The source's generic confidence boost agrees, on every encoded
`InvoiceData`, with the typed "verbatim except confidences" map. -/
theorem boostRec_toJson (d : InvoiceData) :
    boostRec d.toJson = (boostInvoiceData d).toJson := by
  rw [InvoiceData.toJson, boostRec_obj,
    boostObj_cons _ (by decide), boostObj_cons _ (by decide),
    boostObj_cons _ (by decide), boostObj_cons _ (by decide),
    boostObj_cons _ (by decide), boostObj_cons _ (by decide),
    boostObj_cons _ (by decide),
    boostObj_optField _ (by decide), boostObj_optField _ (by decide),
    boostObj_nil, boostRec_str, boostRec_str, boostRec_str, boostRec_num,
    boostRec_party, boostRec_party, boostRec_arr,
    boostArr_encodeArr LineItem.toJson boostLineItem boostRec_lineItem,
    opt_map_id_json _ (fun ts => boostRec_tableArr ts) d.tables,
    opt_map_invoiceFields]
  rfl

/-- Claim C4, counterexample: with a preselected template whose stored
invoice-number metadata has confidence `0`, the reconciliation result still
carries confidence `0` for that field — not the near-maximum `0.99` the
claim requires for *every* field's confidence (the source's
`if (obj.confidence)` skips falsy confidences). -/
theorem c4_counterexample :
    (reconcileTemplates emptyExtracted [] (some zeroConfTemplate)).map
        (fun r => confOfInvoiceNumber r.1) = some (some (.num 0)) ∧
    confOfInvoiceNumber ((forceConfidences zeroConfTemplate.invoiceData).toJson) =
      some (.num (99/100)) ∧
    JsonVal.num 0 ≠ JsonVal.num (99/100) := by
  refine ⟨rfl, rfl, ?_⟩
  intro h
  injection h with h2
  exact absurd h2 (by norm_num)

/-- Claim C4, amended: for every extraction call with a preselected
template `T`, the result is `T`'s stored `InvoiceData` returned verbatim
except that every field's *present, non-zero* confidence is forced to
`0.99` (a confidence of `0`, being falsy, is left unchanged, as is an
absent one), with `T`'s vendor name reported as the applied template; this
holds for every saved-template pool, in particular when a template `S` in
the pool matches the same vendor name — precedence is preselected >
auto-matched > raw. -/
theorem c4_amended_preselected_template (extracted : InvoiceData)
    (templates : List VendorTemplate) (T : VendorTemplate) :
    reconcileTemplates extracted templates (some T) =
      some ((boostInvoiceData T.invoiceData).toJson, some T.vendorName) := by
  simp only [reconcileTemplates, boostConfidence, deepCopy, boostRec_toJson]

/-- Claim C1, counterexample: in a two-page response whose `currency`
label is present only on the second page entry, the normalizer yields the
empty-string default for `currency` even though the later page entry
carries a matching prediction with text `"USD"` — the search does not scan
subsequent pages. -/
theorem c1_counterexample :
    (transformModelResponseToInvoiceData twoPageResponse twoPageDims).map
        InvoiceData.currency = some "" ∧
    ((findFieldIn pageWithCurrency.prediction "currency").bind
        Prediction.ocr_text) = some "USD" ∧
    ("" : String) ≠ "USD" := by
  refine ⟨rfl, rfl, by decide⟩

/-- Claim C1, amended: the normalizer searches only the first page entry of
the first result — for every response, its output is unchanged when every
page entry after the first (and every result after the first) is dropped,
so a label absent from the first page entry yields the default value even
when a later page entry carries it. -/
theorem c1_amended_first_page_only (mr : ModelResponse) (pd : List PageDim) :
    transformModelResponseToInvoiceData mr pd =
      transformModelResponseToInvoiceData (firstPageOnly mr) pd := by
  rcases mr with ⟨results⟩
  cases results with
  | nil => rfl
  | cons r rest =>
      rcases r with ⟨pds⟩
      cases pds with
      | nil => rfl
      | cons pg rest2 => rfl

/-- How every non-table component of the normalizer output is computed
from the first page entry (the table matches do not touch them). -/
theorem transformPage_core (pg : PageData) (pd : List PageDim) :
    (transformPage pg pd).invoiceNumber =
        ((findFieldIn pg.prediction "invoice_id").bind
          Prediction.ocr_text).getD "" ∧
    (transformPage pg pd).invoiceDate =
        ((findFieldIn pg.prediction "invoice_date").bind
          Prediction.ocr_text).getD "" ∧
    (transformPage pg pd).totalDeclaredValue =
        parseFloatOr0 ((findFieldIn pg.prediction "total_amount").bind
          Prediction.ocr_text) ∧
    (transformPage pg pd).currency =
        ((findFieldIn pg.prediction "currency").bind
          Prediction.ocr_text).getD "" ∧
    (transformPage pg pd).shipper =
        { name := ((findFieldIn pg.prediction "shipper_name").bind
            Prediction.ocr_text).getD ""
          address := ((findFieldIn pg.prediction "shipper_address").bind
            Prediction.ocr_text).getD ""
          fields := some
            ⟨some (createFieldMetadata pd
                (findFieldIn pg.prediction "shipper_name") 0),
             some (createFieldMetadata pd
                (findFieldIn pg.prediction "shipper_address") 0)⟩ } ∧
    (transformPage pg pd).consignee =
        { name := ((findFieldIn pg.prediction "consignee_name").bind
            Prediction.ocr_text).getD ""
          address := ((findFieldIn pg.prediction "consignee_address").bind
            Prediction.ocr_text).getD ""
          fields := some
            ⟨some (createFieldMetadata pd
                (findFieldIn pg.prediction "consignee_name") 0),
             some (createFieldMetadata pd
                (findFieldIn pg.prediction "consignee_address") 0)⟩ } ∧
    (transformPage pg pd).fields = some
        ⟨some (createFieldMetadata pd
            (findFieldIn pg.prediction "invoice_id") 0),
         some (createFieldMetadata pd
            (findFieldIn pg.prediction "invoice_date") 0),
         some (createFieldMetadata pd
            (findFieldIn pg.prediction "total_amount") 0),
         some (createFieldMetadata pd
            (findFieldIn pg.prediction "currency") 0)⟩ ∧
    (transformPage pg pd).tables.isSome = true := by
  simp only [transformPage]
  split <;> (try split) <;> (try split) <;>
    exact ⟨rfl, rfl, rfl, rfl, rfl, rfl, rfl, rfl⟩

/-- The guarded normalizer yields exactly the first page entry's
transformation. -/
theorem transform_eq_page (mr : ModelResponse) (pd : List PageDim)
    (r : ResultEntry) (pg : PageData)
    (hr : mr.results.head? = some r) (hpg : r.page_data.head? = some pg) :
    transformModelResponseToInvoiceData mr pd = some (transformPage pg pd) := by
  simp only [transformModelResponseToInvoiceData, hr, hpg]

/-- Claim C5: a named field absent from the response yields the empty
string (text fields) or zero (numeric fields) with an empty metadata entry
(no confidence, no bounding box), and the output's schema shape is
invariant: the `fields` maps, both parties' `fields`, and the `tables`
array are always present regardless of extraction completeness (the other
keys are always present by construction of the output record). -/
theorem c5_absent_fields_default (mr : ModelResponse) (pd : List PageDim)
    (r : ResultEntry) (pg : PageData) (out : InvoiceData)
    (hr : mr.results.head? = some r) (hpg : r.page_data.head? = some pg)
    (hout : transformModelResponseToInvoiceData mr pd = some out) :
    (out.fields.isSome = true ∧ out.tables.isSome = true ∧
      out.shipper.fields.isSome = true ∧ out.consignee.fields.isSome = true) ∧
    (findFieldIn pg.prediction "invoice_id" = none →
      out.invoiceNumber = "" ∧
      out.fields.map InvoiceFields.invoiceNumber = some (some ⟨none, none⟩)) ∧
    (findFieldIn pg.prediction "invoice_date" = none →
      out.invoiceDate = "" ∧
      out.fields.map InvoiceFields.invoiceDate = some (some ⟨none, none⟩)) ∧
    (findFieldIn pg.prediction "total_amount" = none →
      out.totalDeclaredValue = 0 ∧
      out.fields.map InvoiceFields.totalDeclaredValue =
        some (some ⟨none, none⟩)) ∧
    (findFieldIn pg.prediction "currency" = none →
      out.currency = "" ∧
      out.fields.map InvoiceFields.currency = some (some ⟨none, none⟩)) ∧
    (findFieldIn pg.prediction "shipper_name" = none →
      out.shipper.name = "" ∧
      out.shipper.fields.map PartyFields.name = some (some ⟨none, none⟩)) ∧
    (findFieldIn pg.prediction "shipper_address" = none →
      out.shipper.address = "" ∧
      out.shipper.fields.map PartyFields.address = some (some ⟨none, none⟩)) ∧
    (findFieldIn pg.prediction "consignee_name" = none →
      out.consignee.name = "" ∧
      out.consignee.fields.map PartyFields.name = some (some ⟨none, none⟩)) ∧
    (findFieldIn pg.prediction "consignee_address" = none →
      out.consignee.address = "" ∧
      out.consignee.fields.map PartyFields.address =
        some (some ⟨none, none⟩)) := by
  have hpage := transform_eq_page mr pd r pg hr hpg
  rw [hpage, Option.some.injEq] at hout
  subst hout
  obtain ⟨h1, h2, h3, h4, h5, h6, h7, h8⟩ := transformPage_core pg pd
  refine ⟨⟨by rw [h7]; rfl, h8, by rw [h5]; rfl, by rw [h6]; rfl⟩,
    ?_, ?_, ?_, ?_, ?_, ?_, ?_, ?_⟩ <;> intro habs
  · rw [h1, h7, habs]; exact ⟨rfl, rfl⟩
  · rw [h2, h7, habs]; exact ⟨rfl, rfl⟩
  · rw [h3, h7, habs]; exact ⟨rfl, rfl⟩
  · rw [h4, h7, habs]; exact ⟨rfl, rfl⟩
  · rw [h5, habs]; exact ⟨rfl, rfl⟩
  · rw [h5, habs]; exact ⟨rfl, rfl⟩
  · rw [h6, habs]; exact ⟨rfl, rfl⟩
  · rw [h6, habs]; exact ⟨rfl, rfl⟩

/-- Witness for C5 at a response with no predictions at all. -/
theorem c5_witness :
    (transformPage emptyPage []).invoiceNumber = "" ∧
    (transformPage emptyPage []).fields.map InvoiceFields.invoiceNumber =
      some (some ⟨none, none⟩) :=
  (c5_absent_fields_default emptyResponse [] ⟨[emptyPage]⟩ emptyPage
      (transformPage emptyPage []) rfl rfl
      (transform_eq_page emptyResponse [] ⟨[emptyPage]⟩ emptyPage rfl rfl)).2.1
    rfl

/-!
Counting and page lemmas for the cell loop (`buildRows`), used by C2.
-/

/-- Writing a property into the row keyed `c` leaves the key list
unchanged. -/
theorem keys_update (rows : List (Nat × LineItem)) (c : Nat)
    (f : LineItem → LineItem) :
    ((rows.map (fun p => if p.1 == c then (p.1, f p.2) else p)).map
      Prod.fst) = rows.map Prod.fst := by
  induction rows with
  | nil => rfl
  | cons p rest ih =>
      simp only [List.map_cons, ih]
      congr 1
      split <;> rfl

/-- Inserting a fresh row adds exactly its key (up to order). -/
theorem keys_insert (r : Nat) (li : LineItem)
    (rows : List (Nat × LineItem)) :
    ((rowsInsertSorted r li rows).map Prod.fst).Perm
      (r :: rows.map Prod.fst) := by
  induction rows with
  | nil => exact List.Perm.refl _
  | cons p rest ih =>
      rcases p with ⟨k, v⟩
      simp only [rowsInsertSorted]
      split
      · exact List.Perm.refl _
      · simp only [List.map_cons]
        exact (List.Perm.cons k ih).trans (List.Perm.swap r k _)

/-- `rows[cell.row]` is falsy exactly when the key is new. -/
theorem find?_none_iff (rows : List (Nat × LineItem)) (c : Nat) :
    ((rows.find? (fun p => p.1 == c)).isNone = true) ↔
      c ∉ rows.map Prod.fst := by
  rw [Option.isNone_iff_eq_none, List.find?_eq_none]
  simp only [List.mem_map, beq_iff_eq, not_exists, not_and]

/-- One loop iteration adds the cell's row key when new and otherwise
preserves the key list (up to order). -/
theorem keys_applyCell (pd : List PageDim) (rows : List (Nat × LineItem))
    (c : Cell) :
    ((applyCell pd rows c).map Prod.fst).Perm
      (if c.row ∈ rows.map Prod.fst then rows.map Prod.fst
       else c.row :: rows.map Prod.fst) := by
  by_cases hmem : c.row ∈ rows.map Prod.fst
  · have hfind : (rows.find? (fun p => p.1 == c.row)).isNone = false := by
      cases hv : (rows.find? (fun p => p.1 == c.row)).isNone with
      | false => rfl
      | true => exact absurd ((find?_none_iff rows c.row).mp hv) (not_not_intro hmem)
    rw [if_pos hmem]
    simp only [applyCell, hfind, Bool.false_eq_true, if_false]
    cases hm : fieldMapping c.label with
    | none => exact List.Perm.refl _
    | some prop => rw [keys_update]
  · have hfind : (rows.find? (fun p => p.1 == c.row)).isNone = true :=
      (find?_none_iff rows c.row).mpr hmem
    rw [if_neg hmem]
    simp only [applyCell, hfind, if_true]
    cases hm : fieldMapping c.label with
    | none => exact keys_insert c.row emptyRow rows
    | some prop => rw [keys_update]; exact keys_insert c.row emptyRow rows

/-- Folding the cells produces one row object per distinct row index. -/
theorem keys_fold (pd : List PageDim) (cells : List Cell) :
    ∀ (rows : List (Nat × LineItem)) (ks : List Nat),
      ((rows.map Prod.fst).Perm ks) →
      (((cells.foldl (applyCell pd) rows).map Prod.fst).Perm
        (cells.foldl (fun a cl => if cl.row ∈ a then a else a ++ [cl.row]) ks)) := by
  induction cells with
  | nil => intro rows ks h; simpa using h
  | cons c rest ih =>
      intro rows ks h
      simp only [List.foldl_cons]
      have hk := keys_applyCell pd rows c
      by_cases hmem : c.row ∈ rows.map Prod.fst
      · have hm2 : c.row ∈ ks := h.mem_iff.mp hmem
        rw [if_pos hmem] at hk
        rw [if_pos hm2]
        exact ih _ _ (hk.trans h)
      · have hm2 : c.row ∉ ks := fun hin => hmem (h.mem_iff.mpr hin)
        rw [if_neg hmem] at hk
        rw [if_neg hm2]
        refine ih _ _ (hk.trans ?_)
        exact (List.Perm.cons c.row h).trans
          (List.perm_append_singleton c.row ks).symm

/-- The number of line items equals the number of distinct row indices
among the cells. -/
theorem buildRows_length (pd : List PageDim) (cells : List Cell) :
    (buildRows pd cells).length = distinctRowCount cells := by
  have h := (keys_fold pd cells [] [] (List.Perm.refl _)).length_eq
  simp only [List.length_map] at h
  rw [buildRows, distinctRowCount, List.foldl_map]
  exact h

theorem hsOk_empty : hsOk emptyRow := by
  intro f hf m hm bb hbb
  simp only [emptyRow, Option.some.injEq] at hf
  subst hf
  simp [emptyLineItemFields] at hm

theorem hsOk_setRowProp (pd : List PageDim) (cell : Cell)
    (prop : LineItemProp) (li : LineItem) (h : hsOk li) :
    hsOk (setRowProp pd cell prop li) := by
  have hbase : ∀ f0, li.fields.getD emptyLineItemFields = f0 →
      ∀ m, f0.hsCode = some m → ∀ bb, m.boundingBox = some bb →
        bb.page = 1 := by
    intro f0 hf0 m hm bb hbb
    cases hli : li.fields with
    | none =>
        rw [hli] at hf0
        simp only [Option.getD_none] at hf0
        subst hf0
        simp [emptyLineItemFields] at hm
    | some f1 =>
        rw [hli] at hf0
        simp only [Option.getD_some] at hf0
        subst hf0
        exact h f1 hli m hm bb hbb
  have hcell : ∀ bb, (cellFieldMetadata pd cell).boundingBox = some bb →
      bb.page = 1 := by
    intro bb hbb
    simp only [cellFieldMetadata, normalizeBboxRaw] at hbb
    cases hdim : pd[0]? with
    | none => rw [hdim] at hbb; cases hbb
    | some dim =>
        rw [hdim] at hbb
        simp only [Option.some.injEq] at hbb
        subst hbb
        rfl
  cases prop <;> intro f hf m hm bb hbb <;>
    simp only [setRowProp, setFieldsProp, Option.some.injEq] at hf <;>
    subst hf <;>
    simp only at hm
  case description => exact hbase _ rfl m hm bb hbb
  case quantity => exact hbase _ rfl m hm bb hbb
  case unitPrice => exact hbase _ rfl m hm bb hbb
  case totalPrice => exact hbase _ rfl m hm bb hbb
  case countryOfOrigin => exact hbase _ rfl m hm bb hbb
  case hsCode =>
      rw [Option.some.injEq] at hm
      subst hm
      exact hcell bb hbb

theorem mem_insertSorted (r : Nat) (li : LineItem) :
    ∀ (rows : List (Nat × LineItem)) (x : Nat × LineItem),
      x ∈ rowsInsertSorted r li rows → x = (r, li) ∨ x ∈ rows
  | [], x, hx => by simpa [rowsInsertSorted] using hx
  | (k, v) :: rest, x, hx => by
      simp only [rowsInsertSorted] at hx
      split at hx
      · rcases List.mem_cons.mp hx with h2 | h2
        · exact Or.inl h2
        · exact Or.inr h2
      · rcases List.mem_cons.mp hx with h2 | h2
        · exact Or.inr (List.mem_cons.mpr (Or.inl h2))
        · rcases mem_insertSorted r li rest x h2 with h3 | h3
          · exact Or.inl h3
          · exact Or.inr (List.mem_cons.mpr (Or.inr h3))

/-- Every row built by the cell loop satisfies the page-1 property of its
`hsCode` metadata. -/
theorem buildRows_hsOk (pd : List PageDim) (cells : List Cell) :
    ∀ rows, (∀ p ∈ rows, hsOk p.2) →
      ∀ p ∈ cells.foldl (applyCell pd) rows, hsOk p.2 := by
  induction cells with
  | nil => intro rows h p hp; exact h p hp
  | cons c rest ih =>
      intro rows h
      simp only [List.foldl_cons]
      apply ih
      have h1 : ∀ p ∈ (if (rows.find? (fun p => p.1 == c.row)).isNone then
          rowsInsertSorted c.row emptyRow rows else rows), hsOk p.2 := by
        split
        · intro p hp
          rcases mem_insertSorted c.row emptyRow rows p hp with h2 | h2
          · rw [h2]; exact hsOk_empty
          · exact h p h2
        · exact h
      intro p hp
      simp only [applyCell] at hp
      cases hm : fieldMapping c.label with
      | none =>
          rw [hm] at hp
          exact h1 p hp
      | some prop =>
          rw [hm] at hp
          rcases List.mem_map.mp hp with ⟨q, hq, hqp⟩
          by_cases hqr : (q.1 == c.row) = true
          · rw [if_pos hqr] at hqp
            rw [← hqp]
            exact hsOk_setRowProp pd c prop q.2 (h1 q hq)
          · rw [if_neg (by simpa using hqr)] at hqp
            rw [← hqp]
            exact h1 q hq

/-- Under the first page entry's `line_items` table, the output's line
items are the built rows. -/
theorem transformPage_lineItems (pg : PageData) (pd : List PageDim)
    (t : RawTable)
    (ht : pg.tables.find? (fun tb => tb.label == "line_items") = some t) :
    (transformPage pg pd).lineItems = (buildRows pd t.cells).map Prod.snd := by
  simp only [transformPage, ht]
  split <;> (try split) <;> rfl

/-- With a `table_grid` prediction on the first page entry whose page has
known dimensions, the output holds exactly one table. -/
theorem transformPage_tablesLen (pg : PageData) (pd : List PageDim)
    (tg : Prediction) (dim : PageDim)
    (htg : findFieldIn pg.prediction "table_grid" = some tg)
    (hdim : pd[tg.page.getD 0]? = some dim) :
    (transformPage pg pd).tables.map List.length = some 1 := by
  simp only [transformPage, htg, hdim]
  rfl

/-- Claim C2, counterexample: for a two-page response with a one-row
`line_items` table and a `table_grid` prediction on each page, the
normalizer yields one line item (page 1's row only, not `1 + 1 = 2`) and
one table (not `2`): the second page entry is never read. -/
theorem c2_counterexample :
    (transformModelResponseToInvoiceData c2Response c2Dims).map
        (fun o => (o.lineItems.length, o.tables.map List.length)) =
      some (1, some 1) ∧
    (1 : Nat) ≠ 2 := by
  exact ⟨rfl, by decide⟩

/-- Claim C2, amended: for every response whose *first* page entry carries
a `line_items` table and a `table_grid` prediction with known page
dimensions, the normalizer output has `lineItems.length` equal to the
number of distinct row indices in the first page entry's `line_items`
table alone, `tables.length = 1` (a single table, never one per page), and
every line item's `hsCode` metadata bounding box on page `1` — rows of
later page entries are never appended and no page beyond the first
contributes. -/
theorem c2_amended_first_page_rows (mr : ModelResponse) (pd : List PageDim)
    (r : ResultEntry) (pg : PageData) (out : InvoiceData) (t : RawTable)
    (tg : Prediction) (dim : PageDim)
    (hr : mr.results.head? = some r) (hpg : r.page_data.head? = some pg)
    (hout : transformModelResponseToInvoiceData mr pd = some out)
    (ht : pg.tables.find? (fun tb => tb.label == "line_items") = some t)
    (htg : findFieldIn pg.prediction "table_grid" = some tg)
    (hdim : pd[tg.page.getD 0]? = some dim) :
    out.lineItems.length = distinctRowCount t.cells ∧
    out.tables.map List.length = some 1 ∧
    ∀ li ∈ out.lineItems, hsOk li := by
  have hpage := transform_eq_page mr pd r pg hr hpg
  rw [hpage, Option.some.injEq] at hout
  subst hout
  refine ⟨?_, transformPage_tablesLen pg pd tg dim htg hdim, ?_⟩
  · rw [transformPage_lineItems pg pd t ht, List.length_map,
      buildRows_length]
  · intro li hli
    rw [transformPage_lineItems pg pd t ht] at hli
    rcases List.mem_map.mp hli with ⟨q, hq, hqe⟩
    rw [← hqe]
    exact buildRows_hsOk pd t.cells [] (by intro p hp; cases hp) q hq

/-- Witness for the amended C2 at the concrete two-page response. -/
theorem c2_witness :
    (transformPage (c2Page 0) c2Dims).lineItems.length =
        distinctRowCount [liCell 1] ∧
    (transformPage (c2Page 0) c2Dims).tables.map List.length = some 1 ∧
    ∀ li ∈ (transformPage (c2Page 0) c2Dims).lineItems, hsOk li :=
  c2_amended_first_page_rows c2Response c2Dims ⟨[c2Page 0, c2Page 1]⟩
    (c2Page 0) (transformPage (c2Page 0) c2Dims) ⟨"line_items", [liCell 1]⟩
    (gridPred 0) ⟨1, 1⟩ rfl rfl
    (transform_eq_page c2Response c2Dims ⟨[c2Page 0, c2Page 1]⟩ (c2Page 0)
      rfl rfl) rfl rfl rfl

/-!
Frame lemmas for the heap transforms (C10): `boostConfidence` and
`degradeInvoiceData` mutate only the freshly allocated copy, leaving every
pre-existing heap object untouched.
-/

theorem find?_map_set_ne (mem : List (Nat × HNode)) (a b : Nat) (nd : HNode)
    (hne : b ≠ a) :
    (mem.map (fun p => if p.1 == a then (a, nd) else p)).find?
        (fun p => p.1 == b) =
      mem.find? (fun p => p.1 == b) := by
  induction mem with
  | nil => rfl
  | cons p rest ih =>
      simp only [List.map_cons]
      by_cases hpa : (p.1 == a) = true
      · have hp1 : p.1 = a := by simpa using hpa
        rw [if_pos hpa,
          List.find?_cons_of_neg _ (by simp; exact fun hc => hne hc.symm),
          List.find?_cons_of_neg _ (by simp [hp1]; exact fun hc => hne hc.symm)]
        exact ih
      · rw [if_neg hpa]
        by_cases hpb : (p.1 == b) = true
        · rw [@List.find?_cons_of_pos _ (fun q => q.1 == b) p _ hpb,
            @List.find?_cons_of_pos _ (fun q => q.1 == b) p _ hpb]
        · rw [@List.find?_cons_of_neg _ (fun q => q.1 == b) p _ hpb,
            @List.find?_cons_of_neg _ (fun q => q.1 == b) p _ hpb]
          exact ih

theorem lookup_set_ne (h : Heap) (a b : Nat) (nd : HNode) (hne : b ≠ a) :
    (h.set a nd).lookup b = h.lookup b := by
  simp only [Heap.set, Heap.lookup]
  rw [find?_map_set_ne h.mem a b nd hne]

theorem find?_map_set_eq (mem : List (Nat × HNode)) (a : Nat) (nd : HNode)
    (q : Nat × HNode) (hx : mem.find? (fun p => p.1 == a) = some q) :
    (mem.map (fun p => if p.1 == a then (a, nd) else p)).find?
        (fun p => p.1 == a) = some (a, nd) := by
  induction mem with
  | nil => cases hx
  | cons p rest ih =>
      simp only [List.map_cons]
      by_cases hpa : (p.1 == a) = true
      · rw [if_pos hpa]
        exact List.find?_cons_of_pos _ (by simp)
      · rw [if_neg hpa, @List.find?_cons_of_neg _ (fun q => q.1 == a) p _ hpa]
        rw [@List.find?_cons_of_neg _ (fun q => q.1 == a) p _ hpa] at hx
        exact ih hx

theorem lookup_set_eq (h : Heap) (a : Nat) (nd nd0 : HNode)
    (hx : h.lookup a = some nd0) : (h.set a nd).lookup a = some nd := by
  simp only [Heap.lookup, Heap.set] at hx ⊢
  cases hf : h.mem.find? (fun p => p.1 == a) with
  | none => rw [hf] at hx; cases hx
  | some q => rw [find?_map_set_eq h.mem a nd q hf]; rfl

theorem set_next (h : Heap) (a : Nat) (nd : HNode) :
    (h.set a nd).next = h.next := rfl

theorem lookup_alloc_lt (h : Heap) (nd : HNode) (b : Nat) (hb : b < h.next) :
    (h.alloc nd).1.lookup b = h.lookup b := by
  simp only [Heap.alloc, Heap.lookup]
  rw [List.find?_append]
  rw [List.find?_cons_of_neg _
    (by simp only [beq_iff_eq]; omega)]
  simp [List.find?]

theorem lookup_alloc_cases (h : Heap) (nd : HNode) (a : Nat) (nd2 : HNode)
    (hl : (h.alloc nd).1.lookup a = some nd2) :
    h.lookup a = some nd2 ∨ (a = h.next ∧ nd2 = nd) := by
  simp only [Heap.alloc, Heap.lookup] at hl ⊢
  rw [List.find?_append] at hl
  cases hf : h.mem.find? (fun p => p.1 == a) with
  | some q =>
      left
      rw [hf] at hl
      simpa [Option.or] using hl
  | none =>
      right
      rw [hf] at hl
      simp only [Option.none_or] at hl
      by_cases hna : (h.next == a) = true
      · rw [@List.find?_cons_of_pos _ (fun p => p.1 == a) (h.next, nd) []
          hna] at hl
        simp only [Option.map_some', Option.some.injEq] at hl
        have ha : h.next = a := by simpa using hna
        exact ⟨ha.symm, hl.symm⟩
      · rw [@List.find?_cons_of_neg _ (fun p => p.1 == a) (h.next, nd) []
          hna] at hl
        simp at hl

theorem alloc_next (h : Heap) (nd : HNode) :
    (h.alloc nd).1.next = h.next + 1 := rfl

/-- A well-formed heap has nothing stored at or above its frontier. -/
theorem closedAbove_of_wf (h : Heap) (hwf : h.wf) :
    h.closedAbove h.next := by
  intro a nd han hl
  exfalso
  simp only [Heap.lookup] at hl
  cases hf : h.mem.find? (fun p => p.1 == a) with
  | none => rw [hf] at hl; cases hl
  | some q =>
      have hq := List.mem_of_find?_eq_some hf
      have hqa : q.1 = a := by
        have := List.find?_some hf
        simpa using this
      have := hwf q hq
      omega

mutual

/-- Allocating a copy extends the frontier, leaves every address below the
old frontier untouched, returns a slot at or above `n`, and keeps the
region at or above `n` closed. -/
theorem allocTree_spec : ∀ (j : JsonVal) (h : Heap) (n : Nat),
    n ≤ h.next → h.closedAbove n →
    h.next ≤ (allocTree j h).1.next ∧
    (∀ b, b < h.next → (allocTree j h).1.lookup b = h.lookup b) ∧
    slotGE n (allocTree j h).2 ∧ (allocTree j h).1.closedAbove n
  | .null, h, n, _, hca => ⟨le_rfl, fun _ _ => rfl, trivial, hca⟩
  | .bool _, h, n, _, hca => ⟨le_rfl, fun _ _ => rfl, trivial, hca⟩
  | .num _, h, n, _, hca => ⟨le_rfl, fun _ _ => rfl, trivial, hca⟩
  | .str _, h, n, _, hca => ⟨le_rfl, fun _ _ => rfl, trivial, hca⟩
  | .arr es, h, n, hn, hca => by
      obtain ⟨ha1, ha2, ha3, ha4⟩ := allocArr_spec es h n hn hca
      simp only [allocTree]
      refine ⟨?_, ?_, ?_, ?_⟩
      · rw [alloc_next]; omega
      · intro b hb
        rw [lookup_alloc_lt _ _ b (by omega)]
        exact ha2 b hb
      · show n ≤ (allocArr es h).1.next
        omega
      · intro c nd2 hcn hlc
        rcases lookup_alloc_cases _ _ c nd2 hlc with hold | ⟨hceq, hnd⟩
        · exact ha4 c nd2 hcn hold
        · subst hnd
          exact ha3
  | .obj fs, h, n, hn, hca => by
      obtain ⟨ha1, ha2, ha3, ha4⟩ := allocObj_spec fs h n hn hca
      simp only [allocTree]
      refine ⟨?_, ?_, ?_, ?_⟩
      · rw [alloc_next]; omega
      · intro b hb
        rw [lookup_alloc_lt _ _ b (by omega)]
        exact ha2 b hb
      · show n ≤ (allocObj fs h).1.next
        omega
      · intro c nd2 hcn hlc
        rcases lookup_alloc_cases _ _ c nd2 hlc with hold | ⟨hceq, hnd⟩
        · exact ha4 c nd2 hcn hold
        · subst hnd
          exact ha3

theorem allocArr_spec : ∀ (es : JsonArr) (h : Heap) (n : Nat),
    n ≤ h.next → h.closedAbove n →
    h.next ≤ (allocArr es h).1.next ∧
    (∀ b, b < h.next → (allocArr es h).1.lookup b = h.lookup b) ∧
    (∀ s ∈ (allocArr es h).2, slotGE n s) ∧
    (allocArr es h).1.closedAbove n
  | .nil, h, n, _, hca =>
      ⟨le_rfl, fun _ _ => rfl, (by intro s hs; cases hs), hca⟩
  | .cons v rest, h, n, hn, hca => by
      obtain ⟨h1, h2, h3, h4⟩ := allocTree_spec v h n hn hca
      obtain ⟨g1, g2, g3, g4⟩ := allocArr_spec rest (allocTree v h).1 n
        (by omega) h4
      simp only [allocArr]
      refine ⟨by omega, ?_, ?_, g4⟩
      · intro b hb
        rw [g2 b (by omega)]
        exact h2 b hb
      · intro s hs
        rcases List.mem_cons.mp hs with hs1 | hs1
        · rw [hs1]; exact h3
        · exact g3 s hs1

theorem allocObj_spec : ∀ (fs : JsonObj) (h : Heap) (n : Nat),
    n ≤ h.next → h.closedAbove n →
    h.next ≤ (allocObj fs h).1.next ∧
    (∀ b, b < h.next → (allocObj fs h).1.lookup b = h.lookup b) ∧
    (∀ p ∈ (allocObj fs h).2, slotGE n p.2) ∧
    (allocObj fs h).1.closedAbove n
  | .nil, h, n, _, hca =>
      ⟨le_rfl, fun _ _ => rfl, (by intro s hs; cases hs), hca⟩
  | .cons k v rest, h, n, hn, hca => by
      obtain ⟨h1, h2, h3, h4⟩ := allocTree_spec v h n hn hca
      obtain ⟨g1, g2, g3, g4⟩ := allocObj_spec rest (allocTree v h).1 n
        (by omega) h4
      simp only [allocObj]
      refine ⟨by omega, ?_, ?_, g4⟩
      · intro b hb
        rw [g2 b (by omega)]
        exact h2 b hb
      · intro p hp
        rcases List.mem_cons.mp hp with hp1 | hp1
        · rw [hp1]; exact h3
        · exact g3 p hp1

end

/-- Rewriting a truthy `confidence` slot to a primitive keeps all slots'
references at or above `n`. -/
theorem setConfSlot_GE (fs : List (String × HSlot)) (n : Nat)
    (h : ∀ p ∈ fs, slotGE n p.2) : ∀ p ∈ setConfSlot fs, slotGE n p.2 := by
  unfold setConfSlot
  split
  · intro p hp
    rcases List.mem_map.mp hp with ⟨q, hq, hqe⟩
    by_cases hc : (q.1 == "confidence") = true
    · rw [if_pos hc] at hqe
      rw [← hqe]
      trivial
    · rw [if_neg hc] at hqe
      rw [← hqe]
      exact h q hq
  · exact h

/-- The recursion of the heap-level boost over a slot list, given the
frame property at the next fuel level. -/
theorem boostFold_frame (fuel : Nat)
    (IH : ∀ (a : Nat) (h : Heap) (n : Nat), n ≤ a → h.closedAbove n →
      (∀ b, b < n → (boostMut fuel a h).lookup b = h.lookup b) ∧
      (boostMut fuel a h).closedAbove n ∧ (boostMut fuel a h).next = h.next) :
    ∀ (slots : List HSlot) (h : Heap) (n : Nat), h.closedAbove n →
      (∀ s ∈ slots, slotGE n s) →
      (∀ b, b < n →
        (slots.foldl (fun hh s => match s with
            | .prim _ => hh
            | .ref b2 => boostMut fuel b2 hh) h).lookup b = h.lookup b) ∧
      (slots.foldl (fun hh s => match s with
          | .prim _ => hh
          | .ref b2 => boostMut fuel b2 hh) h).closedAbove n ∧
      (slots.foldl (fun hh s => match s with
          | .prim _ => hh
          | .ref b2 => boostMut fuel b2 hh) h).next = h.next := by
  intro slots
  induction slots with
  | nil => intro h n hca _; exact ⟨fun _ _ => rfl, hca, rfl⟩
  | cons s rest ih =>
      intro h n hca hge
      simp only [List.foldl_cons]
      cases s with
      | prim l =>
          exact ih h n hca (fun s hs => hge s (List.mem_cons_of_mem _ hs))
      | ref b2 =>
          have hb2 : n ≤ b2 := hge (.ref b2) (List.mem_cons_self _ _)
          obtain ⟨f1, c1, n1⟩ := IH b2 h n hb2 hca
          obtain ⟨f2, c2, n2⟩ := ih (boostMut fuel b2 h) n c1
            (fun s hs => hge s (List.mem_cons_of_mem _ hs))
          exact ⟨fun b hb => (f2 b hb).trans (f1 b hb), c2, n2.trans n1⟩

/-- The mutating boost recursion started inside the closed fresh region
changes nothing below `n` and preserves closure and the frontier. -/
theorem boostMut_frame : ∀ (fuel : Nat) (a : Nat) (h : Heap) (n : Nat),
    n ≤ a → h.closedAbove n →
    (∀ b, b < n → (boostMut fuel a h).lookup b = h.lookup b) ∧
    (boostMut fuel a h).closedAbove n ∧ (boostMut fuel a h).next = h.next := by
  intro fuel
  induction fuel with
  | zero => intro a h n _ hca; exact ⟨fun _ _ => rfl, hca, rfl⟩
  | succ fuel ihf =>
      intro a h n hna hca
      cases hl : h.lookup a with
      | none =>
          simp only [boostMut, hl]
          exact ⟨fun _ _ => by trivial, hca, by trivial⟩
      | some nd =>
          cases nd with
          | arr es =>
              simp only [boostMut, hl]
              exact boostFold_frame fuel ihf es h n hca (hca a (.arr es) hna hl)
          | obj fs =>
              simp only [boostMut, hl]
              have hfs : ∀ p ∈ fs, slotGE n p.2 := hca a (.obj fs) hna hl
              have hfs2 := setConfSlot_GE fs n hfs
              have hset_ca :
                  (h.set a (.obj (setConfSlot fs))).closedAbove n := by
                intro c nd2 hcn hlc
                by_cases hc : c = a
                · subst hc
                  rw [lookup_set_eq h c _ (.obj fs) hl] at hlc
                  injection hlc with he
                  rw [← he]
                  exact hfs2
                · rw [lookup_set_ne h a c _ hc] at hlc
                  exact hca c nd2 hcn hlc
              obtain ⟨f2, c2, n2⟩ := boostFold_frame fuel ihf
                ((setConfSlot fs).map Prod.snd)
                (h.set a (.obj (setConfSlot fs))) n hset_ca
                (by
                  intro s hs
                  rcases List.mem_map.mp hs with ⟨q, hq, hqe⟩
                  rw [← hqe]
                  exact hfs2 q hq)
              refine ⟨?_, c2, by rw [n2, set_next]⟩
              intro b hb
              rw [f2 b hb, lookup_set_ne h a b _ (by omega)]

/-- A reference read out of an object inside the closed region stays
inside it. -/
theorem getSlot_ref_GE (h : Heap) (a : Nat) (k : String) (n b : Nat)
    (han : n ≤ a) (hca : h.closedAbove n)
    (hg : getSlot h a k = some (.ref b)) : n ≤ b := by
  cases hl : h.lookup a with
  | none =>
      have hg2 : (none : Option HSlot) = some (.ref b) := by
        unfold getSlot at hg
        rw [hl] at hg
        exact hg
      cases hg2
  | some nd =>
      cases nd with
      | arr es =>
          have hg2 : (none : Option HSlot) = some (.ref b) := by
            unfold getSlot at hg
            rw [hl] at hg
            exact hg
          cases hg2
      | obj fs =>
          have hg2 : Option.map Prod.snd (fs.find? (fun p => p.1 == k)) =
              some (HSlot.ref b) := by
            unfold getSlot at hg
            rw [hl] at hg
            exact hg
          cases hf : fs.find? (fun p => p.1 == k) with
          | none => rw [hf] at hg2; cases hg2
          | some q =>
              rw [hf] at hg2
              simp only [Option.map_some', Option.some.injEq] at hg2
              have hq := List.mem_of_find?_eq_some hf
              have hnode := hca a (.obj fs) han hl
              have hslot := hnode q hq
              rw [hg2] at hslot
              exact hslot

/-- A property write inside the closed region changes nothing below `n`
and keeps the region closed. -/
theorem setSlot_frame (h : Heap) (a : Nat) (k : String) (s : HSlot) (n : Nat)
    (han : n ≤ a) (hca : h.closedAbove n) (hs : slotGE n s) :
    (∀ b, b < n → (setSlot h a k s).lookup b = h.lookup b) ∧
    (setSlot h a k s).closedAbove n ∧ (setSlot h a k s).next = h.next := by
  cases hl : h.lookup a with
  | none =>
      simp only [setSlot, hl]
      exact ⟨fun _ _ => by trivial, hca, by trivial⟩
  | some nd =>
      cases nd with
      | arr es =>
          simp only [setSlot, hl]
          exact ⟨fun _ _ => by trivial, hca, by trivial⟩
      | obj fs =>
          simp only [setSlot, hl]
          refine ⟨?_, ?_, set_next h a _⟩
          · intro b hb
            exact lookup_set_ne h a b _ (by omega)
          · intro c nd2 hcn hlc
            by_cases hc : c = a
            · subst hc
              rw [lookup_set_eq h c _ (.obj fs) hl] at hlc
              injection hlc with he
              rw [← he]
              intro p hp
              have hfs : ∀ q ∈ fs, slotGE n q.2 := hca c (.obj fs) hcn hl
              unfold setSlotList at hp
              split at hp
              · rcases List.mem_map.mp hp with ⟨q, hq, hqe⟩
                by_cases hqk : (q.1 == k) = true
                · rw [if_pos hqk] at hqe
                  rw [← hqe]
                  exact hs
                · rw [if_neg hqk] at hqe
                  rw [← hqe]
                  exact hfs q hq
              · rcases List.mem_append.mp hp with hq | hq
                · exact hfs p hq
                · have : p = (k, s) := by simpa using hq
                  rw [this]
                  exact hs
            · rw [lookup_set_ne h a c _ hc] at hlc
              exact hca c nd2 hcn hlc

/-- The degradation mutation, started inside the closed fresh region,
changes nothing below `n` and preserves the frontier. -/
theorem degradeMut_frame (h : Heap) (a : Nat) (n : Nat) (h2 : Heap)
    (han : n ≤ a) (hca : h.closedAbove n)
    (hd : degradeMut h a = some h2) :
    (∀ b, b < n → h2.lookup b = h.lookup b) ∧ h2.next = h.next := by
  unfold degradeMut at hd
  cases hg1 : getSlot h a "invoiceNumber" with
  | none => rw [hg1] at hd; simp at hd
  | some s1 =>
  rw [hg1] at hd
  cases s1 with
  | ref _ => simp at hd
  | prim l =>
  cases l with
  | null => simp at hd
  | bool v => simp at hd
  | num v => simp at hd
  | str invNum =>
  simp only at hd
  obtain ⟨f1, c1, n1⟩ := setSlot_frame h a "invoiceNumber"
    (.prim (.str (String.mk (replaceFirst invNum.data "001".data "O01".data))))
    n han hca trivial
  set h1 := setSlot h a "invoiceNumber"
    (.prim (.str (String.mk (replaceFirst invNum.data "001".data "O01".data))))
    with hh1
  cases hg2 : getSlot h1 a "fields" with
  | none => rw [hg2] at hd; simp at hd
  | some s2 =>
  rw [hg2] at hd
  cases s2 with
  | prim _ => simp at hd
  | ref fa =>
  have hfa : n ≤ fa := getSlot_ref_GE h1 a "fields" n fa han c1 hg2
  simp only at hd
  cases hg3 : getSlot h1 fa "invoiceNumber" with
  | none => rw [hg3] at hd; simp at hd
  | some s3 =>
  rw [hg3] at hd
  cases s3 with
  | prim _ => simp at hd
  | ref ia =>
  have hia : n ≤ ia := getSlot_ref_GE h1 fa "invoiceNumber" n ia hfa c1 hg3
  simp only at hd
  obtain ⟨f2, c2, n2⟩ := setSlot_frame h1 ia "confidence"
    (.prim (.num (78/100))) n hia c1 trivial
  set h2x := setSlot h1 ia "confidence" (.prim (.num (78/100))) with hh2
  cases hg4 : getSlot h2x a "lineItems" with
  | none => rw [hg4] at hd; simp at hd
  | some s4 =>
  rw [hg4] at hd
  cases s4 with
  | prim _ => simp at hd
  | ref la =>
  have hla : n ≤ la := getSlot_ref_GE h2x a "lineItems" n la han c2 hg4
  simp only at hd
  cases hg5 : h2x.lookup la with
  | none => rw [hg5] at hd; simp at hd
  | some nd5 =>
  rw [hg5] at hd
  cases nd5 with
  | obj _ => simp at hd
  | arr elems =>
  cases elems with
  | nil =>
      simp only [Option.some.injEq] at hd
      subst hd
      exact ⟨fun b hb => (f2 b hb).trans (f1 b hb), n2.trans n1⟩
  | cons first rest =>
  cases first with
  | prim _ => simp at hd
  | ref li0 =>
  have hli0 : n ≤ li0 := by
    have hnode := c2 la (.arr (.ref li0 :: rest)) hla hg5
    exact hnode (.ref li0) (List.mem_cons_self _ _)
  simp only at hd
  obtain ⟨f3, c3, n3⟩ := setSlot_frame h2x li0 "hsCode"
    (.prim (.str "8471.3O.OO")) n hli0 c2 trivial
  set h3x := setSlot h2x li0 "hsCode" (.prim (.str "8471.3O.OO")) with hh3
  cases hg6 : getSlot h3x li0 "fields" with
  | none => rw [hg6] at hd; simp at hd
  | some s6 =>
  rw [hg6] at hd
  cases s6 with
  | prim _ => simp at hd
  | ref fa2 =>
  have hfa2 : n ≤ fa2 := getSlot_ref_GE h3x li0 "fields" n fa2 hli0 c3 hg6
  simp only at hd
  cases hg7 : getSlot h3x fa2 "hsCode" with
  | none => rw [hg7] at hd; simp at hd
  | some s7 =>
  rw [hg7] at hd
  cases s7 with
  | prim _ => simp at hd
  | ref ha =>
  have hha : n ≤ ha := getSlot_ref_GE h3x fa2 "hsCode" n ha hfa2 c3 hg7
  simp only [Option.some.injEq] at hd
  obtain ⟨f4, c4, n4⟩ := setSlot_frame h3x ha "confidence"
    (.prim (.num (65/100))) n hha c3 trivial
  subst hd
  exact ⟨fun b hb =>
    (((f4 b hb).trans (f3 b hb)).trans (f2 b hb)).trans (f1 b hb),
    ((n4.trans n3).trans n2).trans n1⟩

/-- C10: both extraction transforms leave their caller-supplied input
unchanged.  On a well-formed heap, `boostConfidenceHeap` (the heap model of
`boostConfidence`) and `degradeInvoiceDataHeap` (the heap model of
`degradeInvoiceData`) leave every pre-existing address mapped to exactly
the node it held before the call, and the slot they return lies entirely in
the freshly allocated region: each transform deep-copies its argument,
mutates only the copy, and returns the copy. -/
theorem c10_transforms_do_not_mutate_input :
    (∀ (fuel : Nat) (h : Heap) (s : HSlot) (h2 : Heap) (s2 : HSlot),
      h.wf → boostConfidenceHeap fuel h s = some (h2, s2) →
      (∀ b, b < h.next → h2.lookup b = h.lookup b) ∧ slotGE h.next s2) ∧
    (∀ (fuel : Nat) (h : Heap) (s : HSlot) (h2 : Heap) (s2 : HSlot),
      h.wf → degradeInvoiceDataHeap fuel h s = some (h2, s2) →
      (∀ b, b < h.next → h2.lookup b = h.lookup b) ∧ slotGE h.next s2) := by
  constructor
  · intro fuel h s h2 s2 hwf hb
    unfold boostConfidenceHeap at hb
    cases hr : readSlot fuel h s with
    | none => rw [hr] at hb; simp at hb
    | some j =>
        rw [hr] at hb
        simp only [Option.map_some', Option.some.injEq] at hb
        obtain ⟨a1, a2, a3, a4⟩ :=
          allocTree_spec j h h.next le_rfl (closedAbove_of_wf h hwf)
        have hh2 : h2 = boostMutSlot fuel (allocTree j h).2 (allocTree j h).1 :=
          (congrArg Prod.fst hb).symm
        have hs2 : s2 = (allocTree j h).2 := (congrArg Prod.snd hb).symm
        subst hh2; subst hs2
        cases hp : (allocTree j h).2 with
        | prim l =>
            exact ⟨fun b hb2 => a2 b hb2, trivial⟩
        | ref aa =>
            rw [hp] at a3
            obtain ⟨f1, _, _⟩ :=
              boostMut_frame fuel aa (allocTree j h).1 h.next a3 a4
            refine ⟨fun b hb2 => ?_, a3⟩
            exact (f1 b (lt_of_lt_of_le hb2 le_rfl)).trans (a2 b hb2)
  · intro fuel h s h2 s2 hwf hd
    unfold degradeInvoiceDataHeap at hd
    cases hr : readSlot fuel h s with
    | none => rw [hr] at hd; simp at hd
    | some j =>
        rw [hr] at hd
        simp only at hd
        obtain ⟨a1, a2, a3, a4⟩ :=
          allocTree_spec j h h.next le_rfl (closedAbove_of_wf h hwf)
        cases hp : (allocTree j h).2 with
        | prim l => rw [hp] at hd; simp at hd
        | ref aa =>
            rw [hp] at hd
            rw [hp] at a3
            simp only [Option.map_eq_some', Option.some.injEq] at hd
            obtain ⟨h2x, hdm, hpair⟩ := hd
            have hh2 : h2 = h2x := (congrArg Prod.fst hpair).symm
            have hs2 : s2 = .ref aa := (congrArg Prod.snd hpair).symm
            subst hh2; subst hs2
            obtain ⟨f1, _⟩ :=
              degradeMut_frame (allocTree j h).1 aa h.next h2 a3 a4 hdm
            exact ⟨fun b hb2 => (f1 b hb2).trans (a2 b hb2), a3⟩

/-- C10 witness at two concrete heaps: boosting a one-object heap and
degrading a minimal invoice graph preserve every pre-existing address and
return fresh roots. -/
theorem c10_witness :
    ((∀ b, b < boostWitnessHeap.next →
      ((boostConfidenceHeap 3 boostWitnessHeap (.ref 0)).getD
        (boostWitnessHeap, .prim .null)).1.lookup b =
        boostWitnessHeap.lookup b) ∧
     slotGE boostWitnessHeap.next
      ((boostConfidenceHeap 3 boostWitnessHeap (.ref 0)).getD
        (boostWitnessHeap, .prim .null)).2) ∧
    ((∀ b, b < degradeWitnessHeap.next →
      ((degradeInvoiceDataHeap 9 degradeWitnessHeap (.ref 0)).getD
        (degradeWitnessHeap, .prim .null)).1.lookup b =
        degradeWitnessHeap.lookup b) ∧
     slotGE degradeWitnessHeap.next
      ((degradeInvoiceDataHeap 9 degradeWitnessHeap (.ref 0)).getD
        (degradeWitnessHeap, .prim .null)).2) :=
  ⟨c10_transforms_do_not_mutate_input.1 3 boostWitnessHeap (.ref 0)
      ((boostConfidenceHeap 3 boostWitnessHeap (.ref 0)).getD
        (boostWitnessHeap, .prim .null)).1
      ((boostConfidenceHeap 3 boostWitnessHeap (.ref 0)).getD
        (boostWitnessHeap, .prim .null)).2
      (by unfold Heap.wf; decide) rfl,
   c10_transforms_do_not_mutate_input.2 9 degradeWitnessHeap (.ref 0)
      ((degradeInvoiceDataHeap 9 degradeWitnessHeap (.ref 0)).getD
        (degradeWitnessHeap, .prim .null)).1
      ((degradeInvoiceDataHeap 9 degradeWitnessHeap (.ref 0)).getD
        (degradeWitnessHeap, .prim .null)).2
      (by unfold Heap.wf; decide) rfl⟩

end CustomsInvoice
